import Mathlib

/-!
Verification of vcml: processor debug and bus helpers, property registration,
SystemC utilities.

A shallow embedding of
* `include/vcml/processor.h`  (inline members of `vcml::processor`),
* `src/vcml/properties/property_base.cpp`,
* `src/vcml/common/systemc.cpp`,
followed by the properties established about them.

Conventions: `u64` values are natural numbers, reduced `% 2^64` wherever the
C++ arithmetic can wrap; `std::string` is a list of characters where the code
inspects it and a `String` where it is only produced; member functions take the
object state as an argument and return the new state next to their result.
-/

namespace vcml

/-! ## Basic types -/

/-- C++ `u64` (`uint64_t`): a natural number, kept below `2^64` by the operations. -/
abbrev u64 := Nat

/-- Number of values of a 64 bit word. -/
def U64_MOD : Nat := 2 ^ 64

/-- TLM-2.0 `tlm_response_status`: a C enum, so any `int` value can be stored in it. -/
abbrev tlm_response_status := Int

/-- Enumerator of `tlm::tlm_response_status` (TLM-2.0, `tlm_gp.h`). -/
def TLM_OK_RESPONSE : tlm_response_status := 1
/-- Enumerator of `tlm::tlm_response_status` (TLM-2.0, `tlm_gp.h`). -/
def TLM_INCOMPLETE_RESPONSE : tlm_response_status := 0
/-- Enumerator of `tlm::tlm_response_status` (TLM-2.0, `tlm_gp.h`). -/
def TLM_GENERIC_ERROR_RESPONSE : tlm_response_status := -1
/-- Enumerator of `tlm::tlm_response_status` (TLM-2.0, `tlm_gp.h`). -/
def TLM_ADDRESS_ERROR_RESPONSE : tlm_response_status := -2
/-- Enumerator of `tlm::tlm_response_status` (TLM-2.0, `tlm_gp.h`). -/
def TLM_COMMAND_ERROR_RESPONSE : tlm_response_status := -3
/-- Enumerator of `tlm::tlm_response_status` (TLM-2.0, `tlm_gp.h`). -/
def TLM_BURST_ERROR_RESPONSE : tlm_response_status := -4
/-- Enumerator of `tlm::tlm_response_status` (TLM-2.0, `tlm_gp.h`). -/
def TLM_BYTE_ENABLE_ERROR_RESPONSE : tlm_response_status := -5

/-- The seven enumerators of `tlm_response_status`. -/
def tlm_defined_statuses : List tlm_response_status :=
  [TLM_OK_RESPONSE, TLM_INCOMPLETE_RESPONSE, TLM_GENERIC_ERROR_RESPONSE,
   TLM_ADDRESS_ERROR_RESPONSE, TLM_COMMAND_ERROR_RESPONSE, TLM_BURST_ERROR_RESPONSE,
   TLM_BYTE_ENABLE_ERROR_RESPONSE]

/-! ## systemc.cpp: `tlm_response_to_str` -/

/-- `const char* tlm_response_to_str(tlm_response_status status)`, systemc.cpp:70-96:
a `switch` over the seven enumerators with a `default` branch. -/
def tlm_response_to_str (status : tlm_response_status) : String :=
  match status with
  | 1 => "TLM_OK_RESPONSE"
  | 0 => "TLM_INCOMPLETE_RESPONSE"
  | -1 => "TLM_GENERIC_ERROR_RESPONSE"
  | -2 => "TLM_ADDRESS_ERROR_RESPONSE"
  | -3 => "TLM_COMMAND_ERROR_RESPONSE"
  | -4 => "TLM_BURST_ERROR_RESPONSE"
  | -5 => "TLM_BYTE_ENABLE_ERROR_RESPONSE"
  | _ => "TLM_UNKNOWN_RESPONSE"

/-! ## Logging and bus ports used by the processor -/

/-- One argument of a printf-style log call. -/
inductive log_arg where
  | word (v : u64)
  | size (n : Nat)
  | str (s : String)
  deriving DecidableEq, Repr

/-- One record emitted by `log_error(fmt, args...)`: the format string and its arguments. -/
structure log_record where
  fmt : String
  args : List log_arg
  deriving DecidableEq, Repr

/-- Direction of one bus access. -/
inductive bus_command where
  | TLM_READ_COMMAND
  | TLM_WRITE_COMMAND
  deriving DecidableEq, Repr

/-- One access performed on a port: direction, address, number of bytes. -/
structure bus_access where
  cmd : bus_command
  addr : u64
  size : Nat
  deriving DecidableEq, Repr

/-- Modelled from the spec: `master_socket` (declared in `vcml/master_socket.h`, which is
absent). The initiator endpoint issues one descriptor per `read`/`write` call and hands
back the response status written by whatever serves it (window cache or target).
`rd`/`wr` stand for that serving side and may depend on everything accessed before;
`accesses` records the accesses performed on this port, oldest first. -/
structure master_socket where
  name : String
  rd : List bus_access → u64 → List Nat → tlm_response_status × List Nat
  wr : List bus_access → u64 → List Nat → tlm_response_status
  accesses : List bus_access

/-- Modelled from the spec: `master_socket::read(addr, data)`: performs one read access of
`sizeof(data)` bytes; yields the response status and the (possibly filled) data. -/
def master_socket.read (s : master_socket) (addr : u64) (data : List Nat) :
    tlm_response_status × List Nat × master_socket :=
  let r := s.rd s.accesses addr data
  (r.1, r.2, { s with accesses := s.accesses ++ [⟨.TLM_READ_COMMAND, addr, data.length⟩] })

/-- Modelled from the spec: `master_socket::write(addr, data)`: performs one write access of
`sizeof(data)` bytes; yields the response status. -/
def master_socket.write (s : master_socket) (addr : u64) (data : List Nat) :
    tlm_response_status × master_socket :=
  (s.wr s.accesses addr data,
   { s with accesses := s.accesses ++ [⟨.TLM_WRITE_COMMAND, addr, data.length⟩] })

/-! ## processor.h -/

/-- `struct irq_stats`, processor.h:39-46 (`sc_time` fields as tick counts). -/
structure irq_stats where
  irq : Nat
  irq_count : Nat
  irq_status : Bool
  irq_last : Nat
  irq_uptime : Nat
  irq_longest : Nat
  deriving DecidableEq, Repr

/-- `class processor`, processor.h:48-123: the private state (lines 51-56), the public
properties and ports (lines 75-80) and the error log of the component. -/
structure processor where
  m_run_time : Float
  m_num_cycles : u64
  m_symbols : Option Nat
  m_irq_stats : List (Nat × irq_stats)
  m_breakpoints : List u64
  clock : Nat
  symbols : String
  IRQ : List Nat
  INSN : master_socket
  DATA : master_socket
  log : List log_record

/-- The virtual accessors `fetch`/`read`/`write` call; a concrete core may override them. -/
structure processor_virtuals where
  get_program_counter : processor → u64
  get_stack_pointer : processor → u64

/-- `log_error(fmt, ...)` on the component: appends one record. -/
def processor.log_error (p : processor) (fmt : String) (args : List log_arg) : processor :=
  { p with log := p.log ++ [⟨fmt, args⟩] }

/-- `virtual bool insert_breakpoint(u64 address) { return false; }`, processor.h:87. -/
def processor.insert_breakpoint (p : processor) (_address : u64) : Bool × processor :=
  (false, p)

/-- `virtual bool remove_breakpoint(u64 address) { return false; }`, processor.h:88. -/
def processor.remove_breakpoint (p : processor) (_address : u64) : Bool × processor :=
  (false, p)

/-- `virtual u64 get_program_counter() { return 0; }`, processor.h:93. -/
def processor.get_program_counter (_p : processor) : u64 := 0

/-- `virtual u64 get_stack_pointer() { return 0; }`, processor.h:94. -/
def processor.get_stack_pointer (_p : processor) : u64 := 0

/-- `virtual u64 get_core_id() { return 0; }`, processor.h:95. -/
def processor.get_core_id (_p : processor) : u64 := 0

/-- `virtual void set_program_counter(u64 val) {}`, processor.h:97. -/
def processor.set_program_counter (p : processor) (_val : u64) : processor := p

/-- `virtual void set_stack_pointer(u64 val) {}`, processor.h:98. -/
def processor.set_stack_pointer (p : processor) (_val : u64) : processor := p

/-- `virtual void set_core_id(u64 val) {}`, processor.h:99. -/
def processor.set_core_id (p : processor) (_val : u64) : processor := p

/-- The base class implementations of the virtual accessors. -/
def processor.base_virtuals : processor_virtuals :=
  ⟨processor.get_program_counter, processor.get_stack_pointer⟩

/-- `bool processor::virt_to_phys(u64 vaddr, u64& paddr)`, processor.h:125-128.
Takes the old content of `paddr`; returns the result and the new content of `paddr`. -/
def processor.virt_to_phys (p : processor) (vaddr : u64) (_paddr : u64) :
    Bool × u64 × processor :=
  (true, vaddr, p)

/-- `string processor::disassemble(u64& addr, unsigned char* insn)`, processor.h:130-133.
Returns the text, the new content of `addr` and the processor. -/
def processor.disassemble (p : processor) (addr : u64) (_insn : List Nat) :
    String × u64 × processor :=
  ("n/a", (addr + 4) % U64_MOD, p)

/-- Consecutive `disassemble` calls, one per instruction buffer, each starting at the
address the previous one left behind; returns the texts and the final address. -/
def processor.disassemble_seq (p : processor) :
    List (List Nat) → u64 → List String × u64 × processor
  | [], addr => ([], addr, p)
  | insn :: rest, addr =>
    let r := p.disassemble addr insn
    let q := processor.disassemble_seq r.2.2 rest r.2.1
    (r.1 :: q.1, q.2.1, q.2.2)

/-- `void processor::reset()`, processor.h:135-138. -/
def processor.reset (p : processor) : processor :=
  { p with m_num_cycles := 0, m_run_time := 0.0 }

/-- The seven `log_error` calls of the failure branch of `fetch`/`read`/`write`
(processor.h:144-151, 160-167, 176-183); `op` is the word "fetch", "read" or "write"
of the first message, `port` the name of the port used. `PRIx32` is "x". -/
def processor.log_bus_error (v : processor_virtuals) (p : processor) (op : String)
    (rs : tlm_response_status) (addr : u64) (size : Nat) (port : String) : processor :=
  let status := tlm_response_to_str rs
  let p := p.log_error ("detected bus error during " ++ op ++ " operation") []
  let p := p.log_error "  addr = 0x%08x" [.word addr]
  let p := p.log_error "  pc   = 0x%08x" [.word (v.get_program_counter p)]
  let p := p.log_error "  sp   = 0x%08x" [.word (v.get_stack_pointer p)]
  let p := p.log_error "  size = %d bytes" [.size size]
  let p := p.log_error "  port = %s" [.str port]
  p.log_error "  code = %s" [.str status]

/-- `tlm_response_status processor::fetch(u64 addr, T& data)`, processor.h:140-154.
`failed` is the predicate of `vcml/common/systemc.h` (absent); `data` is the object
representation of the `T` passed by reference. -/
def processor.fetch (failed : tlm_response_status → Bool) (v : processor_virtuals)
    (p : processor) (addr : u64) (data : List Nat) :
    tlm_response_status × List Nat × processor :=
  let r := p.INSN.read addr data
  let rs := r.1
  let p := { p with INSN := r.2.2 }
  let p := if failed rs then p.log_bus_error v "fetch" rs addr data.length p.INSN.name else p
  (rs, r.2.1, p)

/-- `tlm_response_status processor::read(u64 addr, T& data)`, processor.h:156-170. -/
def processor.read (failed : tlm_response_status → Bool) (v : processor_virtuals)
    (p : processor) (addr : u64) (data : List Nat) :
    tlm_response_status × List Nat × processor :=
  let r := p.DATA.read addr data
  let rs := r.1
  let p := { p with DATA := r.2.2 }
  let p := if failed rs then p.log_bus_error v "read" rs addr data.length p.DATA.name else p
  (rs, r.2.1, p)

/-- `tlm_response_status processor::write(u64 addr, const T& data)`, processor.h:172-186. -/
def processor.write (failed : tlm_response_status → Bool) (v : processor_virtuals)
    (p : processor) (addr : u64) (data : List Nat) :
    tlm_response_status × processor :=
  let r := p.DATA.write addr data
  let rs := r.1
  let p := { p with DATA := r.2 }
  let p := if failed rs then p.log_bus_error v "write" rs addr data.length p.DATA.name else p
  (rs, p)

/-- A call of one of the three base class setters. -/
inductive setter_call where
  | set_program_counter (val : u64)
  | set_stack_pointer (val : u64)
  | set_core_id (val : u64)
  deriving DecidableEq, Repr

/-- Performs one setter call on the base class. -/
def processor.call_setter (p : processor) : setter_call → processor
  | .set_program_counter val => p.set_program_counter val
  | .set_stack_pointer val => p.set_stack_pointer val
  | .set_core_id val => p.set_core_id val

/-- Performs a sequence of setter calls, first to last. -/
def processor.call_setters (p : processor) (cs : List setter_call) : processor :=
  cs.foldl processor.call_setter p

/-! ## systemc.cpp: the per-cycle hook -/

/-- `class cycle_helper`, systemc.cpp:139-205: the two callback vectors (lines 190-191).
A callback is a `function<void(void)>`; it acts on the rest of the program state `σ`. -/
structure cycle_helper (σ : Type) where
  deltas : List (σ → σ)
  tsteps : List (σ → σ)

/-- `cycle_helper::cycle_helper()`, systemc.cpp:193-195: both vectors start empty. -/
def cycle_helper.new (σ : Type) : cycle_helper σ := ⟨[], []⟩

/-- `void cycle_helper::cycle(bool delta_cycle)`, systemc.cpp:207-215: calls the callbacks
of one vector, front to back. -/
def cycle_helper.cycle {σ : Type} (h : cycle_helper σ) (delta_cycle : Bool) (s : σ) : σ :=
  if delta_cycle then h.deltas.foldl (fun st func => func st) s
  else h.tsteps.foldl (fun st func => func st) s

/-- `void on_each_delta_cycle(function<void(void)> callback)`, systemc.cpp:219-224.
The argument `g` is the global `g_cycle_helper` (`none` for `nullptr`); the result is its
value after the call. -/
def on_each_delta_cycle {σ : Type} (g : Option (cycle_helper σ)) (callback : σ → σ) :
    Option (cycle_helper σ) :=
  let h := match g with
    | none => cycle_helper.new σ
    | some h => h
  some { h with deltas := h.deltas ++ [callback] }

/-- `void on_each_time_step(function<void(void)> callback)`, systemc.cpp:226-231. -/
def on_each_time_step {σ : Type} (g : Option (cycle_helper σ)) (callback : σ → σ) :
    Option (cycle_helper σ) :=
  let h := match g with
    | none => cycle_helper.new σ
    | some h => h
  some { h with tsteps := h.tsteps ++ [callback] }

/-- One registration call: which of the two functions was called, and its argument. -/
inductive registration (σ : Type) where
  | delta (callback : σ → σ)
  | tstep (callback : σ → σ)

/-- Performs one registration call on the global. -/
def register {σ : Type} (g : Option (cycle_helper σ)) : registration σ → Option (cycle_helper σ)
  | .delta callback => on_each_delta_cycle g callback
  | .tstep callback => on_each_time_step g callback

/-- Performs a sequence of registration calls, first to last. -/
def register_all {σ : Type} (g : Option (cycle_helper σ)) (regs : List (registration σ)) :
    Option (cycle_helper σ) :=
  regs.foldl register g

/-- The callbacks a sequence of calls passed to `on_each_delta_cycle`, in call order. -/
def delta_callbacks {σ : Type} : List (registration σ) → List (σ → σ)
  | [] => []
  | .delta callback :: rest => callback :: delta_callbacks rest
  | .tstep _ :: rest => delta_callbacks rest

/-- The callbacks a sequence of calls passed to `on_each_time_step`, in call order. -/
def tstep_callbacks {σ : Type} : List (registration σ) → List (σ → σ)
  | [] => []
  | .delta _ :: rest => tstep_callbacks rest
  | .tstep callback :: rest => callback :: tstep_callbacks rest

/-- An observable callback: calling it appends its label to the list of calls made. -/
def recording_callback {ι : Type} (label : ι) : List ι → List ι :=
  fun calls => calls ++ [label]

/-- A labelled registration call of a recording callback: `(true, i)` registers callback
`i` with `on_each_delta_cycle`, `(false, i)` with `on_each_time_step`. -/
def recording_registration {ι : Type} (r : Bool × ι) : registration (List ι) :=
  if r.1 then .delta (recording_callback r.2) else .tstep (recording_callback r.2)

/-- Labels registered with `on_each_delta_cycle` (`kind = true`) or with
`on_each_time_step` (`kind = false`), in registration order. -/
def labels_of_kind {ι : Type} (kind : Bool) (rs : List (Bool × ι)) : List ι :=
  (rs.filter (fun r => r.1 == kind)).map (fun r => r.2)

/-! ## SystemC objects and attributes, property_base.cpp, `find_attribute` -/

/-- `std::string`, where the code looks at its characters. -/
abbrev std_string := List Char

/-- SystemC `SC_HIERARCHY_CHAR` (`sc_object.h`): the separator of hierarchical names. -/
def SC_HIERARCHY_CHAR : Char := '.'

/-- SystemC `sc_attr_base`: `addr` identifies the object (attribute collections store
pointers), `name` is the constant string handed to the `sc_attr_base` constructor, the
one `sc_attr_base::name()` returns and attribute collections compare. -/
structure sc_attr_base where
  addr : Nat
  name : std_string
  deriving DecidableEq, Repr

/-- The search loop shared by the members of SystemC `sc_attr_cltn`:
`for (i = size - 1; i >= 0; --i) if (name == m_cltn[i]->name()) ...`;
yields the index the loop stops at. -/
def sc_attr_cltn.rsearch : List sc_attr_base → std_string → Option Nat
  | [], _ => none
  | a :: rest, name =>
    match sc_attr_cltn.rsearch rest name with
    | some i => some (i + 1)
    | none => if name = a.name then some 0 else none

/-- SystemC `sc_attr_cltn::push_back`: refuses (returns false) when an attribute of the
same name is present, appends otherwise. -/
def sc_attr_cltn.push_back (c : List sc_attr_base) (a : sc_attr_base) :
    Bool × List sc_attr_base :=
  match sc_attr_cltn.rsearch c a.name with
  | some _ => (false, c)
  | none => (true, c ++ [a])

/-- SystemC `sc_attr_cltn::operator[](name)`: the attribute of that name, or null. -/
def sc_attr_cltn.lookup (c : List sc_attr_base) (name : std_string) : Option sc_attr_base :=
  match sc_attr_cltn.rsearch c name with
  | some i => c.get? i
  | none => none

/-- SystemC `sc_attr_cltn::remove(name)`: swaps the attribute of that name with the last
element and pops it; returns the removed attribute, or null when there is none. -/
def sc_attr_cltn.remove (c : List sc_attr_base) (name : std_string) :
    Option sc_attr_base × List sc_attr_base :=
  match sc_attr_cltn.rsearch c name with
  | none => (none, c)
  | some i =>
    match c.get? i, c.getLast? with
    | some a, some b => (some a, (c.set i b).dropLast)
    | _, _ => (none, c)

/-- SystemC `sc_object` (base of `sc_module`): hierarchical name and attribute collection. -/
structure sc_object where
  name : std_string
  m_attr_cltn : List sc_attr_base
  deriving DecidableEq, Repr

/-- SystemC `sc_object::add_attribute`. -/
def sc_object.add_attribute (o : sc_object) (a : sc_attr_base) : Bool × sc_object :=
  ((sc_attr_cltn.push_back o.m_attr_cltn a).1,
   { o with m_attr_cltn := (sc_attr_cltn.push_back o.m_attr_cltn a).2 })

/-- SystemC `sc_object::get_attribute(name)`. -/
def sc_object.get_attribute (o : sc_object) (name : std_string) : Option sc_attr_base :=
  sc_attr_cltn.lookup o.m_attr_cltn name

/-- SystemC `sc_object::remove_attribute(name)`. -/
def sc_object.remove_attribute (o : sc_object) (name : std_string) :
    Option sc_attr_base × sc_object :=
  ((sc_attr_cltn.remove o.m_attr_cltn name).1,
   { o with m_attr_cltn := (sc_attr_cltn.remove o.m_attr_cltn name).2 })

/-- SystemC `sc_simcontext`, as far as the code uses it: the objects of the design (a
pointer to an object is its position) and the module under construction
(`hierarchy_curr()`, `none` for null). -/
structure sc_simcontext where
  objects : List sc_object
  hierarchy_curr : Option Nat
  deriving DecidableEq, Repr

/-- SystemC `sc_find_object`: a pointer to the object with that hierarchical name, or null. -/
def sc_find_object : List sc_object → std_string → Option Nat
  | [], _ => none
  | o :: rest, name =>
    if o.name = name then some 0 else (sc_find_object rest name).map (fun i => i + 1)

/-- `sc_object* find_object(const string& name)`, systemc.cpp:24-26. -/
def find_object (simc : sc_simcontext) (name : std_string) : Option Nat :=
  sc_find_object simc.objects name

/-- `std::string::rfind(char)`: index of the last occurrence, `none` for `npos`. -/
def rfind : std_string → Char → Option Nat
  | [], _ => none
  | x :: xs, c =>
    match rfind xs c with
    | some i => some (i + 1)
    | none => if x = c then some 0 else none

/-- `sc_attr_base* find_attribute(const string& name)`, systemc.cpp:28-38. -/
def find_attribute (simc : sc_simcontext) (name : std_string) : Option sc_attr_base :=
  match rfind name SC_HIERARCHY_CHAR with
  | none => none
  | some pos =>
    match find_object simc (name.take pos) with
    | none => none
    | some parent =>
      match simc.objects.get? parent with
      | none => none
      | some o => o.get_attribute name

/-- `class property_base : public sc_attr_base`: the base sub-object `base` and the two members
the constructor initialises (`m_parent` is a pointer to the parent module). -/
structure property_base where
  base : sc_attr_base
  m_name : std_string
  m_parent : Nat
  deriving DecidableEq, Repr

/-- `property_base::property_base(const char* nm, sc_module* parent)`,
property_base.cpp:23-36. `this` is the address of the object under construction.
`VCML_ERROR_ON` raises an error. -/
def property_base.construct (simc : sc_simcontext) (this : Nat) (nm : std_string)
    (parent : Option Nat) : Except String (property_base × sc_simcontext) :=
  let m_parent := match parent with
    | none => simc.hierarchy_curr
    | some q => some q
  match m_parent with
  | none => .error "property declared outside module"
  | some q =>
    match simc.objects.get? q with
    | none => .error "invalid parent pointer"
    | some o =>
      let self : sc_attr_base := ⟨this, nm⟩
      let o1 := (o.add_attribute self).2
      .ok (⟨self, o1.name ++ [SC_HIERARCHY_CHAR] ++ nm, q⟩,
           { simc with objects := simc.objects.set q o1 })

/-- Modelled from the spec: `property_base::name()`, declared in
`vcml/properties/property_base.h` (absent): the accessor of the member `m_name`, the full
hierarchical name of the property (parent name, hierarchy separator, short name). It hides
the inherited `sc_attr_base::name()`. -/
def property_base.name (p : property_base) : std_string := p.m_name

/-- `property_base::~property_base()`, property_base.cpp:38-40:
`m_parent->remove_attribute(name())`. The accessor `name` called there is an argument. -/
def property_base.destroy (name : property_base → std_string) (simc : sc_simcontext)
    (p : property_base) : sc_simcontext :=
  match simc.objects.get? p.m_parent with
  | none => simc
  | some o =>
    { simc with objects := simc.objects.set p.m_parent (o.remove_attribute (name p)).2 }

/-- The attribute collection of the object a pointer refers to. -/
def sc_simcontext.attributes_of (simc : sc_simcontext) (q : Nat) : List sc_attr_base :=
  match simc.objects.get? q with
  | none => []
  | some o => o.m_attr_cltn

/-- Constructs a property and destroys it again; yields the context after construction, the
property, and the context after destruction. -/
def property_base.construct_destroy (name : property_base → std_string) (simc : sc_simcontext)
    (this : Nat) (nm : std_string) (parent : Option Nat) :
    Except String (sc_simcontext × property_base × sc_simcontext) :=
  match property_base.construct simc this nm parent with
  | .error e => .error e
  | .ok r => .ok (r.2, r.1, property_base.destroy name r.2 r.1)

/-- A design with one module "top" that has no attributes yet. -/
def design_top : sc_simcontext := ⟨[⟨"top".toList, []⟩], none⟩

/-! ## systemc.cpp: stream extraction of `sc_time` -/

/-- SystemC `sc_time_unit`. -/
inductive sc_time_unit where
  | SC_FS
  | SC_PS
  | SC_NS
  | SC_US
  | SC_MS
  | SC_SEC
  deriving DecidableEq, Repr

/-- A `sc_time` value, given by the SystemC constructor call that builds it:
`of_unit v tu` is `sc_time(double v, sc_time_unit tu)`, the time of `v` units `tu` (the
`double` holds the integer `v`); `of_value v scale` is `sc_time(sc_dt::uint64 v, bool scale)`. -/
inductive sc_time where
  | of_unit (v : Nat) (tu : sc_time_unit)
  | of_value (v : u64) (scale : Bool)
  deriving DecidableEq, Repr

/-- SystemC `sc_time(sc_dt::uint64 v, bool scale)` (`sc_time.cpp`): the number of time
resolution ticks stored. Without `scale` it is `v` itself (`sc_time::from_value`); with
`scale` the constructor multiplies `v` by the default time unit, itself a number of ticks
(1000 unless changed: 1 ns over a resolution of 1 ps). The product is formed in `double`,
which is exact below `2^53`. -/
def sc_time_value_ticks (default_time_unit : Nat) (v : u64) (scale : Bool) : Nat :=
  if scale then v * default_time_unit else v

/-- C `isspace` in the "C" locale: space, and the control characters 9 to 13. -/
def isspace (c : Char) : Bool :=
  c.toNat = 32 || (9 ≤ c.toNat && c.toNat ≤ 13)

/-- C `tolower` in the "C" locale. -/
def tolower (c : Char) : Char :=
  if 65 ≤ c.toNat ∧ c.toNat ≤ 90 then Char.ofNat (c.toNat + 32) else c

/-- Modelled from the spec: `vcml::to_lower` (declared in `vcml/common/utils.h`, absent):
the string with every character lower-cased, so that upper and lower case spellings of a
unit are treated alike. -/
def to_lower (s : std_string) : std_string := s.map tolower

/-- `std::string::c_str()`, as seen by the C functions: the characters before the first NUL. -/
def c_str (s : std_string) : std_string := s.takeWhile (fun c => c.toNat != 0)

/-- Value of a character as a digit (C `strtoul`: 0-9, then letters of either case). -/
def digit_value (c : Char) : Option Nat :=
  if 48 ≤ c.toNat ∧ c.toNat ≤ 57 then some (c.toNat - 48)
  else if 97 ≤ c.toNat ∧ c.toNat ≤ 122 then some (c.toNat - 87)
  else if 65 ≤ c.toNat ∧ c.toNat ≤ 90 then some (c.toNat - 55)
  else none

/-- The digit loop of `strtoul`: consumes the longest run of digits valid in `base`;
yields the accumulated value and the rest of the string. -/
def strtoul_digits (base : Nat) : std_string → Nat → Nat × std_string
  | [], acc => (acc, [])
  | c :: cs, acc =>
    match digit_value c with
    | some d => if d < base then strtoul_digits base cs (acc * base + d) else (acc, c :: cs)
    | none => (acc, c :: cs)

/-- Whether the subject sequence is hexadecimal: "0x" or "0X" followed by a hex digit. -/
def strtoul_is_hex : std_string → Bool
  | z :: x :: h :: _ =>
    z.toNat = 48 && (x.toNat = 120 || x.toNat = 88) &&
      (match digit_value h with
       | some d => d < 16
       | none => false)
  | _ => false

/-- C `strtoul(nptr, &endptr, 0)` on a 64 bit `unsigned long`: skips white space, takes an
optional sign, chooses the base from the beginning of the number ("0x" hexadecimal, "0" octal,
decimal otherwise), converts the longest run of digits, saturates at `ULONG_MAX`, negates
modulo `2^64` after a minus sign; without any digit the result is 0 and `endptr` is
`nptr`. Yields the value and the string `endptr` points to. -/
def strtoul (nptr : std_string) : u64 × std_string :=
  let s := nptr.dropWhile isspace
  let neg := s.head?.map Char.toNat = some 45
  let s := if s.head?.map Char.toNat = some 45 ∨ s.head?.map Char.toNat = some 43
    then s.tail else s
  let hex := strtoul_is_hex s
  let base := if hex then 16 else if s.head?.map Char.toNat = some 48 then 8 else 10
  let body := if hex then s.drop 2 else s
  let r := strtoul_digits base body 0
  if r.2.length = body.length then (0, nptr)
  else
    let v := if U64_MOD ≤ r.1 then U64_MOD - 1
      else if neg then (U64_MOD - r.1) % U64_MOD else r.1
    (v, r.2)

/-- Conversion `double fval = value` of a 64 bit unsigned integer: exact below `2^53`,
rounded to 53 significant bits (ties to even) above, where `sh` is the number of bits
that do not fit (1 to 11 for a 64 bit value). The result is an integer. -/
def u64_to_double (v : u64) : Nat :=
  if v < 2 ^ 53 then v
  else
    let sh := ((List.range 12).find? (fun k => v < 2 ^ (53 + k))).getD 12
    let q := v / 2 ^ sh
    let r := v % 2 ^ sh
    let half := 2 ^ (sh - 1)
    (if half < r ∨ (r = half ∧ q % 2 = 1) then q + 1 else q) * 2 ^ sh

/-- Lines 237-254 of `operator>>` (systemc.cpp): the value assigned to `t`, given the
string `str` that `is >> str` has read. -/
def sc_time_from_token (str : std_string) : sc_time :=
  let str := to_lower str
  let r := strtoul (c_str str)
  let value := r.1
  let endptr := r.2
  let fval := u64_to_double value
  if endptr = "ps".toList then sc_time.of_unit fval .SC_PS
  else if endptr = "ns".toList then sc_time.of_unit fval .SC_NS
  else if endptr = "us".toList then sc_time.of_unit fval .SC_US
  else if endptr = "ms".toList then sc_time.of_unit fval .SC_MS
  else if endptr = "s".toList then sc_time.of_unit fval .SC_SEC
  else sc_time.of_value value true

/-- `std::istream& operator>>(std::istream& is, sc_core::sc_time& t)`,
systemc.cpp:235-257. `is` is the unread content of the stream; yields the value assigned
to `t` and the content left unread. `is >> str` skips white space and reads up to the
next white space. -/
def operator_extract_sc_time (is : std_string) : sc_time × std_string :=
  let skipped := is.dropWhile isspace
  let str := skipped.takeWhile (fun c => !isspace c)
  let unread := skipped.dropWhile (fun c => !isspace c)
  (sc_time_from_token str, unread)

/-- The unit suffixes the extraction operator knows, with their time units. -/
def time_unit_suffixes : List (std_string × sc_time_unit) :=
  [("ps".toList, .SC_PS), ("ns".toList, .SC_NS), ("us".toList, .SC_US),
   ("ms".toList, .SC_MS), ("s".toList, .SC_SEC)]

/-- C `toupper` in the "C" locale. -/
def toupper (c : Char) : Char :=
  if 97 ≤ c.toNat ∧ c.toNat ≤ 122 then Char.ofNat (c.toNat - 32) else c

/-- Whether `w` spells the lower case word `u` in some mix of upper and lower case. -/
def spelled_any_case : std_string → std_string → Bool
  | [], [] => true
  | c :: cs, l :: ls => (c == l || c == toupper l) && spelled_any_case cs ls
  | _, _ => false

/-- Whether `w` spells one of the unit suffixes in some mix of upper and lower case. -/
def spells_time_unit (w : std_string) : Bool :=
  time_unit_suffixes.any (fun p => spelled_any_case w p.1)

/-- Whether a character is a decimal digit. -/
def is_decimal_digit (c : Char) : Bool := 48 ≤ c.toNat && c.toNat ≤ 57

/-- Whether a string is a decimal numeral without leading zero, or the single digit 0. -/
def is_decimal_numeral (ds : std_string) : Bool :=
  !ds.isEmpty && ds.all is_decimal_digit &&
    (ds.head?.map Char.toNat != some 48 || ds.length == 1)

/-- The natural number a decimal numeral denotes. -/
def decimal_value (ds : std_string) : Nat :=
  ds.foldl (fun acc c => acc * 10 + (c.toNat - 48)) 0

/-- Whether a suffix makes the token after the numeral 0 start a hexadecimal number:
x or X followed by a hexadecimal digit. -/
def starts_hex_after_zero : std_string → Bool
  | x :: h :: _ =>
    (x.toNat = 120 || x.toNat = 88) &&
      (match digit_value h with
       | some d => d < 16
       | none => false)
  | _ => false

/-- Whether a character can occur inside a token handed to the C functions: neither
white space nor NUL. -/
def is_token_char (c : Char) : Bool := !isspace c && c.toNat != 0

/-! ## systemc.cpp: `tlm_transaction_to_str` -/

/-- TLM-2.0 `tlm_command`: a C enum, so any `int` value can be stored in it. -/
abbrev tlm_command := Int

/-- Enumerator of `tlm::tlm_command` (TLM-2.0, `tlm_gp.h`). -/
def TLM_READ_COMMAND : tlm_command := 0
/-- Enumerator of `tlm::tlm_command` (TLM-2.0, `tlm_gp.h`). -/
def TLM_WRITE_COMMAND : tlm_command := 1
/-- Enumerator of `tlm::tlm_command` (TLM-2.0, `tlm_gp.h`). -/
def TLM_IGNORE_COMMAND : tlm_command := 2

/-- TLM-2.0 `tlm_generic_payload`, as far as `tlm_transaction_to_str` reads it: command,
address, the bytes found at the data pointer, the data length and the response status. -/
structure tlm_generic_payload where
  m_command : tlm_command
  m_address : Nat
  m_data : List Nat
  m_length : Nat
  m_response_status : tlm_response_status

/-- `tlm_generic_payload::get_command()`. -/
def tlm_generic_payload.get_command (tx : tlm_generic_payload) : tlm_command := tx.m_command

/-- `tlm_generic_payload::get_address()`: a 64 bit word. -/
def tlm_generic_payload.get_address (tx : tlm_generic_payload) : u64 := tx.m_address % U64_MOD

/-- `tlm_generic_payload::get_data_length()`: an `unsigned int`. -/
def tlm_generic_payload.get_data_length (tx : tlm_generic_payload) : Nat :=
  tx.m_length % 2 ^ 32

/-- `tlm_generic_payload::get_data_ptr()`: the bytes the pointer refers to. -/
def tlm_generic_payload.get_data_ptr (tx : tlm_generic_payload) : List Nat := tx.m_data

/-- TLM-2.0 `tlm_generic_payload::get_response_string()`: the identifier of the response
status ("TLM_UNKNOWN_RESPONSE" outside the enumeration), the table `tlm_response_to_str`
repeats. -/
def tlm_generic_payload.get_response_string (tx : tlm_generic_payload) : std_string :=
  (tlm_response_to_str tx.m_response_status).toList

/-- The character of a digit below 36, as `std::ostream` prints it without `uppercase`. -/
def digit_char (d : Nat) : Char :=
  if d < 10 then Char.ofNat (48 + d) else Char.ofNat (87 + d)

/-- Digits of an unsigned number in `base`, most significant first, without leading
zero; `fuel` bounds the number of digits (64 are enough for 64 bits in any base). -/
def uint_digits (base : Nat) : Nat → Nat → std_string
  | 0, _ => []
  | fuel + 1, v =>
    if v < base then [digit_char v]
    else uint_digits base fuel (v / base) ++ [digit_char (v % base)]

/-- The formatting state of a `std::stringstream` and the characters written so far:
field width for the next formatted output, fill character, and whether `std::hex` is set. -/
structure stringstream where
  buf : std_string
  width : Nat
  fill : Char
  hex : Bool
  deriving DecidableEq, Repr

/-- A fresh `stringstream`: nothing written, width 0, fill ' ', decimal. -/
def stringstream.new : stringstream := ⟨[], 0, ' ', false⟩

/-- Padding of one formatted output: fill characters in front (the default adjustment)
up to the field width. -/
def stringstream.padded (ss : stringstream) (s : std_string) : std_string :=
  List.replicate (ss.width - s.length) ss.fill ++ s

/-- `ss << "text"` and `ss << std::string`: writes the padded text, resets the width. -/
def stringstream.put_str (ss : stringstream) (s : std_string) : stringstream :=
  { ss with buf := ss.buf ++ ss.padded s, width := 0 }

/-- `ss << v` for an unsigned integer of at most 64 bits: writes its padded digits in
the current base, resets the width. -/
def stringstream.put_uint (ss : stringstream) (v : Nat) : stringstream :=
  { ss with
    buf := ss.buf ++ ss.padded (uint_digits (if ss.hex then 16 else 10) 64 (v % U64_MOD)),
    width := 0 }

/-- `ss << std::hex`. -/
def stringstream.set_hex (ss : stringstream) : stringstream := { ss with hex := true }

/-- `ss.width(w)`. -/
def stringstream.set_width (ss : stringstream) (w : Nat) : stringstream := { ss with width := w }

/-- `ss.fill(c)`. -/
def stringstream.set_fill (ss : stringstream) (c : Char) : stringstream := { ss with fill := c }

/-- `ss.str()`. -/
def stringstream.str (ss : stringstream) : std_string := ss.buf

/-- The loop of systemc.cpp:122-128. `k` is the number of iterations left, so the loop
variable is `i = size - k`; `c` is the rest of the buffer from the moving pointer. -/
def tlm_data_loop (size : Nat) : Nat → List Nat → stringstream → stringstream
  | 0, _, ss => ss
  | k + 1, c, ss =>
    let i := size - (k + 1)
    let ss := ss.set_width 2
    let ss := ss.set_fill '0'
    let ss := ss.put_uint (c.headD 0 % 256)
    let ss := if i ≠ size - 1 then ss.put_str " ".toList else ss
    tlm_data_loop size k c.tail ss

/-- `string tlm_transaction_to_str(const tlm_generic_payload& tx)`, systemc.cpp:98-136. -/
def tlm_transaction_to_str (tx : tlm_generic_payload) : std_string :=
  let ss := stringstream.new
  let ss :=
    if tx.get_command = TLM_READ_COMMAND then ss.put_str "RD ".toList
    else if tx.get_command = TLM_WRITE_COMMAND then ss.put_str "WR ".toList
    else ss.put_str "IG ".toList
  let ss := ss.put_str "0x".toList
  let ss := ss.set_hex
  let ss := ss.set_width 16
  let ss := ss.set_fill '0'
  let ss := ss.put_uint tx.get_address
  let size := tx.get_data_length
  let c := tx.get_data_ptr
  let ss := ss.put_str " [".toList
  let ss := if size = 0 then ss.put_str "<no data>".toList else ss
  let ss := tlm_data_loop size size c ss
  let ss := ss.put_str "]".toList
  let ss := ((ss.put_str " (".toList).put_str tx.get_response_string).put_str ")".toList
  ss.str

/-- Whether a character is a lowercase hexadecimal digit: 0-9 or a-f. -/
def is_lower_hex_digit (c : Char) : Bool :=
  (48 ≤ c.toNat && c.toNat ≤ 57) || (97 ≤ c.toNat && c.toNat ≤ 102)

/-- The number a string of hexadecimal digits denotes. -/
def hex_value (ds : std_string) : Nat :=
  ds.foldl (fun acc c => acc * 16 + (digit_value c).getD 0) 0

/-- What one loop iteration writes for the byte `b`: width 2, fill '0', hexadecimal. -/
def byte_text (b : Nat) : std_string :=
  (((stringstream.new.set_hex).set_width 2).set_fill '0').padded
    (uint_digits 16 64 (b % 256 % U64_MOD))

/-- What is written for the address `a`: width 16, fill '0', hexadecimal. -/
def address_text (a : Nat) : std_string :=
  (((stringstream.new.set_hex).set_width 16).set_fill '0').padded
    (uint_digits 16 64 (a % U64_MOD))

/-! ## Properties of the processor base class -/

theorem log_error_log (p : processor) (fmt : String) (args : List log_arg) :
    (p.log_error fmt args).log = p.log ++ [⟨fmt, args⟩] := rfl

theorem log_bus_error_log (v : processor_virtuals) (p : processor) (op : String)
    (rs : tlm_response_status) (addr : u64) (size : Nat) (port : String) :
    ∃ errs : List log_record, errs.length = 7 ∧
      (p.log_bus_error v op rs addr size port).log = p.log ++ errs ∧
      errs.getLast? = some ⟨"  code = %s", [.str (tlm_response_to_str rs)]⟩ := by
  simp only [processor.log_bus_error, log_error_log, List.append_assoc, List.singleton_append]
  exact ⟨_, by simp, rfl, by simp⟩

theorem log_bus_error_ports (v : processor_virtuals) (p : processor) (op : String)
    (rs : tlm_response_status) (addr : u64) (size : Nat) (port : String) :
    (p.log_bus_error v op rs addr size port).INSN = p.INSN ∧
    (p.log_bus_error v op rs addr size port).DATA = p.DATA := by
  simp [processor.log_bus_error, processor.log_error]

theorem bus_error_branch (failed : tlm_response_status → Bool) (v : processor_virtuals)
    (p : processor) (op : String) (rs : tlm_response_status) (addr : u64) (size : Nat)
    (port : String) :
    ∃ errs : List log_record,
      (if failed rs then p.log_bus_error v op rs addr size port else p).log = p.log ++ errs ∧
      (errs ≠ [] ↔ failed rs = true) ∧
      (failed rs = true → errs.length = 7 ∧
        errs.getLast? = some ⟨"  code = %s", [.str (tlm_response_to_str rs)]⟩) := by
  cases hf : failed rs
  · exact ⟨[], by simp, by simp, by simp⟩
  · obtain ⟨errs, hlen, hlog, hlast⟩ := log_bus_error_log v p op rs addr size port
    refine ⟨errs, by simpa using hlog, ?_, fun _ => ⟨hlen, hlast⟩⟩
    have : errs ≠ [] := by
      intro h
      rw [h] at hlen
      simp at hlen
    simp [this]

theorem bus_error_branch_ports (failed : tlm_response_status → Bool) (v : processor_virtuals)
    (p : processor) (op : String) (rs : tlm_response_status) (addr : u64) (size : Nat)
    (port : String) :
    (if failed rs then p.log_bus_error v op rs addr size port else p).INSN = p.INSN ∧
    (if failed rs then p.log_bus_error v op rs addr size port else p).DATA = p.DATA := by
  cases failed rs
  · exact ⟨rfl, rfl⟩
  · simpa using log_bus_error_ports v p op rs addr size port

/-- C1: `fetch` performs exactly one read on the INSN port, `read`/`write` exactly one
read/write on the DATA port; each returns exactly the response status the port access
produced (whatever it is, no retry, no conversion), leaves the other port alone, and
appends error records to the log if and only if that status is a failure status
(seven records, the last one carrying the symbolic response code). -/
theorem processor_bus_access_returns_status (failed : tlm_response_status → Bool)
    (v : processor_virtuals) (p : processor) (addr : u64) (data : List Nat) :
    ((p.fetch failed v addr data).1 = (p.INSN.rd p.INSN.accesses addr data).1 ∧
     (p.fetch failed v addr data).2.2.INSN.accesses
       = p.INSN.accesses ++ [⟨.TLM_READ_COMMAND, addr, data.length⟩] ∧
     (p.fetch failed v addr data).2.2.DATA.accesses = p.DATA.accesses ∧
     ∃ errs : List log_record,
       (p.fetch failed v addr data).2.2.log = p.log ++ errs ∧
       (errs ≠ [] ↔ failed (p.fetch failed v addr data).1 = true) ∧
       (failed (p.fetch failed v addr data).1 = true → errs.length = 7 ∧
         errs.getLast? = some ⟨"  code = %s",
           [.str (tlm_response_to_str (p.fetch failed v addr data).1)]⟩)) ∧
    ((p.read failed v addr data).1 = (p.DATA.rd p.DATA.accesses addr data).1 ∧
     (p.read failed v addr data).2.2.DATA.accesses
       = p.DATA.accesses ++ [⟨.TLM_READ_COMMAND, addr, data.length⟩] ∧
     (p.read failed v addr data).2.2.INSN.accesses = p.INSN.accesses ∧
     ∃ errs : List log_record,
       (p.read failed v addr data).2.2.log = p.log ++ errs ∧
       (errs ≠ [] ↔ failed (p.read failed v addr data).1 = true) ∧
       (failed (p.read failed v addr data).1 = true → errs.length = 7 ∧
         errs.getLast? = some ⟨"  code = %s",
           [.str (tlm_response_to_str (p.read failed v addr data).1)]⟩)) ∧
    ((p.write failed v addr data).1 = p.DATA.wr p.DATA.accesses addr data ∧
     (p.write failed v addr data).2.DATA.accesses
       = p.DATA.accesses ++ [⟨.TLM_WRITE_COMMAND, addr, data.length⟩] ∧
     (p.write failed v addr data).2.INSN.accesses = p.INSN.accesses ∧
     ∃ errs : List log_record,
       (p.write failed v addr data).2.log = p.log ++ errs ∧
       (errs ≠ [] ↔ failed (p.write failed v addr data).1 = true) ∧
       (failed (p.write failed v addr data).1 = true → errs.length = 7 ∧
         errs.getLast? = some ⟨"  code = %s",
           [.str (tlm_response_to_str (p.write failed v addr data).1)]⟩)) := by
  refine ⟨⟨rfl, ?_, ?_, ?_⟩, ⟨rfl, ?_, ?_, ?_⟩, ⟨rfl, ?_, ?_, ?_⟩⟩
  · simp only [processor.fetch]
    rw [(bus_error_branch_ports failed v _ _ _ _ _ _).1]
    rfl
  · simp only [processor.fetch]
    rw [(bus_error_branch_ports failed v _ _ _ _ _ _).2]
  · simp only [processor.fetch]
    exact bus_error_branch failed v _ _ _ _ _ _
  · simp only [processor.read]
    rw [(bus_error_branch_ports failed v _ _ _ _ _ _).2]
    rfl
  · simp only [processor.read]
    rw [(bus_error_branch_ports failed v _ _ _ _ _ _).1]
  · simp only [processor.read]
    exact bus_error_branch failed v _ _ _ _ _ _
  · simp only [processor.write]
    rw [(bus_error_branch_ports failed v _ _ _ _ _ _).2]
    rfl
  · simp only [processor.write]
    rw [(bus_error_branch_ports failed v _ _ _ _ _ _).1]
  · simp only [processor.write]
    exact bus_error_branch failed v _ _ _ _ _ _

/-- C2: `reset` zeroes the cycle counter and the elapsed run time and leaves every other
field as it was: breakpoints, symbol table handle, interrupt statistics, properties,
ports and log. -/
theorem processor_reset_frame (p : processor) :
    p.reset.m_num_cycles = 0 ∧ p.reset.m_run_time = 0.0 ∧
    p.reset.m_breakpoints = p.m_breakpoints ∧ p.reset.m_symbols = p.m_symbols ∧
    p.reset.m_irq_stats = p.m_irq_stats ∧ p.reset.clock = p.clock ∧
    p.reset.symbols = p.symbols ∧ p.reset.IRQ = p.IRQ ∧ p.reset.INSN = p.INSN ∧
    p.reset.DATA = p.DATA ∧ p.reset.log = p.log :=
  ⟨rfl, rfl, rfl, rfl, rfl, rfl, rfl, rfl, rfl, rfl, rfl⟩

/-- C3: the base class `insert_breakpoint` and `remove_breakpoint` return `false` for every
address and hand back the processor state they were given, breakpoint list included;
being total functions without an error result, they cannot raise an error. -/
theorem processor_breakpoint_ops_unsupported (p : processor) (address : u64) :
    (p.insert_breakpoint address).1 = false ∧ (p.insert_breakpoint address).2 = p ∧
    (p.insert_breakpoint address).2.m_breakpoints = p.m_breakpoints ∧
    (p.remove_breakpoint address).1 = false ∧ (p.remove_breakpoint address).2 = p ∧
    (p.remove_breakpoint address).2.m_breakpoints = p.m_breakpoints :=
  ⟨rfl, rfl, rfl, rfl, rfl, rfl⟩

theorem disassemble_seq_spec (p : processor) (bufs : List (List Nat)) (a : u64) :
    (p.disassemble_seq bufs a).1 = List.replicate bufs.length "n/a" ∧
    (p.disassemble_seq bufs a).2.1 = (if bufs = [] then a else (a + 4 * bufs.length) % U64_MOD) ∧
    (p.disassemble_seq bufs a).2.2 = p := by
  induction bufs generalizing a with
  | nil => simp [processor.disassemble_seq]
  | cons insn rest ih =>
    obtain ⟨h1, h2, h3⟩ := ih ((a + 4) % U64_MOD)
    simp only [processor.disassemble_seq, processor.disassemble]
    refine ⟨?_, ?_, h3⟩
    · simp [h1, List.replicate_succ]
    · rw [h2]
      by_cases hr : rest = []
      · simp [hr]
      · simp only [hr, if_false, List.length_cons, reduceCtorEq]
        rw [Nat.add_mod, Nat.mod_mod, ← Nat.add_mod]
        congr 1
        ring

/-- C4: for a 64 bit address `a` and any instruction buffer, the base class `disassemble`
returns the text "n/a" and leaves `(a + 4) mod 2^64` in the address argument, whatever the
buffer holds; that address differs from `a`; and consecutive calls, one per buffer of
`bufs`, all return "n/a" and end at `(a + 4 * k) mod 2^64`, `k` the number of calls. -/
theorem processor_disassemble_placeholder (p : processor) (a : u64) (insn : List Nat)
    (bufs : List (List Nat)) (ha : a < U64_MOD) :
    (p.disassemble a insn).1 = "n/a" ∧
    (p.disassemble a insn).2.1 = (a + 4) % U64_MOD ∧
    (∀ other : List Nat, p.disassemble a other = p.disassemble a insn) ∧
    (p.disassemble a insn).2.1 ≠ a ∧
    (p.disassemble a insn).2.2 = p ∧
    (p.disassemble_seq bufs a).2.1 = (a + 4 * bufs.length) % U64_MOD ∧
    (p.disassemble_seq bufs a).1 = List.replicate bufs.length "n/a" := by
  refine ⟨rfl, rfl, fun _ => rfl, ?_, rfl, ?_, (disassemble_seq_spec p bufs a).1⟩
  · have hm : U64_MOD = 18446744073709551616 := by norm_num [U64_MOD]
    have key : ∀ x : Nat, x < 18446744073709551616 → (x + 4) % 18446744073709551616 ≠ x := by
      intro x hx
      omega
    show (a + 4) % U64_MOD ≠ a
    rw [hm] at ha ⊢
    exact key a ha
  · rw [(disassemble_seq_spec p bufs a).2.1]
    split
    · next h => simp [h, Nat.mod_eq_of_lt ha]
    · rfl

/-- Witness for C4 at address `2^64 - 2`, where the addition wraps around. -/
theorem processor_disassemble_placeholder_witness :
    18446744073709551614 < U64_MOD ∧
    (∀ p : processor, (p.disassemble 18446744073709551614 [0x13, 0, 0, 0]).2.1 = 2 ∧
      (p.disassemble_seq [[1], [2], [3]] 18446744073709551614).2.1 = 10) := by
  refine ⟨by decide, fun p => ?_⟩
  have h := processor_disassemble_placeholder p 18446744073709551614 [0x13, 0, 0, 0]
    [[1], [2], [3]] (by decide)
  refine ⟨?_, ?_⟩
  · rw [h.2.1]; decide
  · rw [h.2.2.2.2.2.1]; decide

theorem call_setters_id (p : processor) (cs : List setter_call) : p.call_setters cs = p := by
  induction cs with
  | nil => rfl
  | cons c rest ih =>
    cases c <;> simpa [processor.call_setters, processor.call_setter,
      processor.set_program_counter, processor.set_stack_pointer, processor.set_core_id]
      using ih

/-- C5: the base class `virt_to_phys` returns `true` and stores the virtual address itself
in the output argument, whatever that argument held; the base class getters
`get_program_counter`, `get_stack_pointer`, `get_core_id` return 0 in every state, also
after any sequence of `set_program_counter`/`set_stack_pointer`/`set_core_id` calls. -/
theorem processor_default_translation_and_getters (p : processor) (vaddr old : u64)
    (cs : List setter_call) :
    (p.virt_to_phys vaddr old).1 = true ∧ (p.virt_to_phys vaddr old).2.1 = vaddr ∧
    (p.virt_to_phys vaddr old).2.2 = p ∧
    p.get_program_counter = 0 ∧ p.get_stack_pointer = 0 ∧ p.get_core_id = 0 ∧
    (p.call_setters cs).get_program_counter = 0 ∧
    (p.call_setters cs).get_stack_pointer = 0 ∧
    (p.call_setters cs).get_core_id = 0 ∧
    p.call_setters cs = p :=
  ⟨rfl, rfl, rfl, rfl, rfl, rfl, rfl, rfl, rfl, call_setters_id p cs⟩

/-! ## Properties of `tlm_response_to_str` -/

theorem tlm_response_to_str_defined :
    tlm_response_to_str TLM_OK_RESPONSE = "TLM_OK_RESPONSE" ∧
    tlm_response_to_str TLM_INCOMPLETE_RESPONSE = "TLM_INCOMPLETE_RESPONSE" ∧
    tlm_response_to_str TLM_GENERIC_ERROR_RESPONSE = "TLM_GENERIC_ERROR_RESPONSE" ∧
    tlm_response_to_str TLM_ADDRESS_ERROR_RESPONSE = "TLM_ADDRESS_ERROR_RESPONSE" ∧
    tlm_response_to_str TLM_COMMAND_ERROR_RESPONSE = "TLM_COMMAND_ERROR_RESPONSE" ∧
    tlm_response_to_str TLM_BURST_ERROR_RESPONSE = "TLM_BURST_ERROR_RESPONSE" ∧
    tlm_response_to_str TLM_BYTE_ENABLE_ERROR_RESPONSE = "TLM_BYTE_ENABLE_ERROR_RESPONSE" :=
  ⟨rfl, rfl, rfl, rfl, rfl, rfl, rfl⟩

theorem tlm_response_to_str_unknown_iff (status : tlm_response_status) :
    tlm_response_to_str status = "TLM_UNKNOWN_RESPONSE" ↔ status ∉ tlm_defined_statuses := by
  unfold tlm_response_to_str
  split <;> simp_all [tlm_defined_statuses, TLM_OK_RESPONSE, TLM_INCOMPLETE_RESPONSE,
    TLM_GENERIC_ERROR_RESPONSE, TLM_ADDRESS_ERROR_RESPONSE, TLM_COMMAND_ERROR_RESPONSE,
    TLM_BURST_ERROR_RESPONSE, TLM_BYTE_ENABLE_ERROR_RESPONSE]

/-- C7: `tlm_response_to_str` is a total function; it maps each of the seven defined
response statuses to the spelling of its own identifier, so two different defined
statuses never get the same string; and it returns "TLM_UNKNOWN_RESPONSE" exactly for the
values that are none of the seven. -/
theorem tlm_response_to_str_symbolic (status other : tlm_response_status) :
    (tlm_response_to_str TLM_OK_RESPONSE = "TLM_OK_RESPONSE" ∧
     tlm_response_to_str TLM_INCOMPLETE_RESPONSE = "TLM_INCOMPLETE_RESPONSE" ∧
     tlm_response_to_str TLM_GENERIC_ERROR_RESPONSE = "TLM_GENERIC_ERROR_RESPONSE" ∧
     tlm_response_to_str TLM_ADDRESS_ERROR_RESPONSE = "TLM_ADDRESS_ERROR_RESPONSE" ∧
     tlm_response_to_str TLM_COMMAND_ERROR_RESPONSE = "TLM_COMMAND_ERROR_RESPONSE" ∧
     tlm_response_to_str TLM_BURST_ERROR_RESPONSE = "TLM_BURST_ERROR_RESPONSE" ∧
     tlm_response_to_str TLM_BYTE_ENABLE_ERROR_RESPONSE = "TLM_BYTE_ENABLE_ERROR_RESPONSE") ∧
    (status ∈ tlm_defined_statuses → other ∈ tlm_defined_statuses →
      tlm_response_to_str status = tlm_response_to_str other → status = other) ∧
    (tlm_response_to_str status = "TLM_UNKNOWN_RESPONSE" ↔ status ∉ tlm_defined_statuses) := by
  refine ⟨tlm_response_to_str_defined, ?_, tlm_response_to_str_unknown_iff status⟩
  intro hs ho
  simp only [tlm_defined_statuses, List.mem_cons, List.mem_singleton, List.not_mem_nil,
    or_false] at hs ho
  rcases hs with h | h | h | h | h | h | h <;> rcases ho with k | k | k | k | k | k | k <;>
    subst h <;> subst k <;> first | (intro _; rfl) | (intro hh; exact absurd hh (by decide))

/-- Witness for C7: two defined statuses, and a value outside the enumeration. -/
theorem tlm_response_to_str_symbolic_witness :
    (tlm_response_to_str (-2) = tlm_response_to_str (-2) → (-2 : Int) = -2) ∧
    tlm_response_to_str 7 = "TLM_UNKNOWN_RESPONSE" :=
  ⟨(tlm_response_to_str_symbolic (-2) (-2)).2.1 (by decide) (by decide),
   (tlm_response_to_str_symbolic 7 0).2.2.2 (by decide)⟩

/-! ## Properties of the per-cycle hook -/

theorem register_all_lists {σ : Type} (h : cycle_helper σ) (regs : List (registration σ)) :
    ∃ k : cycle_helper σ, register_all (some h) regs = some k ∧
      k.deltas = h.deltas ++ delta_callbacks regs ∧
      k.tsteps = h.tsteps ++ tstep_callbacks regs := by
  induction regs generalizing h with
  | nil => exact ⟨h, rfl, by simp [delta_callbacks], by simp [tstep_callbacks]⟩
  | cons r rest ih =>
    cases r with
    | delta cb =>
      obtain ⟨k, hk, hd, ht⟩ := ih { h with deltas := h.deltas ++ [cb] }
      exact ⟨k, hk, by simp [hd, delta_callbacks], by simp [ht, tstep_callbacks]⟩
    | tstep cb =>
      obtain ⟨k, hk, hd, ht⟩ := ih { h with tsteps := h.tsteps ++ [cb] }
      exact ⟨k, hk, by simp [hd, delta_callbacks], by simp [ht, tstep_callbacks]⟩

theorem register_all_from_null {σ : Type} (regs : List (registration σ)) (hne : regs ≠ []) :
    ∃ k : cycle_helper σ, register_all none regs = some k ∧
      k.deltas = delta_callbacks regs ∧ k.tsteps = tstep_callbacks regs := by
  cases regs with
  | nil => exact absurd rfl hne
  | cons r rest =>
    cases r with
    | delta cb =>
      obtain ⟨k, hk, hd, ht⟩ := @register_all_lists σ ⟨[cb], []⟩ rest
      exact ⟨k, hk, by simp [hd, delta_callbacks], by simp [ht, tstep_callbacks]⟩
    | tstep cb =>
      obtain ⟨k, hk, hd, ht⟩ := @register_all_lists σ ⟨[], [cb]⟩ rest
      exact ⟨k, hk, by simp [hd, delta_callbacks], by simp [ht, tstep_callbacks]⟩

theorem foldl_recording {ι : Type} (ls : List ι) (calls : List ι) :
    (ls.map recording_callback).foldl (fun st func => func st) calls = calls ++ ls := by
  induction ls generalizing calls with
  | nil => simp
  | cons l rest ih => simp [ih, recording_callback]

theorem delta_callbacks_recording {ι : Type} (rs : List (Bool × ι)) :
    delta_callbacks (rs.map recording_registration)
      = (labels_of_kind true rs).map recording_callback := by
  induction rs with
  | nil => rfl
  | cons r rest ih =>
    obtain ⟨b, i⟩ := r
    cases b <;> simp [recording_registration, delta_callbacks, labels_of_kind, List.filter_cons]
      <;> simpa [labels_of_kind] using ih

theorem tstep_callbacks_recording {ι : Type} (rs : List (Bool × ι)) :
    tstep_callbacks (rs.map recording_registration)
      = (labels_of_kind false rs).map recording_callback := by
  induction rs with
  | nil => rfl
  | cons r rest ih =>
    obtain ⟨b, i⟩ := r
    cases b <;> simp [recording_registration, tstep_callbacks, labels_of_kind, List.filter_cons]
      <;> simpa [labels_of_kind] using ih

/-- C8: the hook keeps two observer lists. After any non-empty sequence of registration
calls made from the initial state (`g_cycle_helper == nullptr`), the helper holds in
`deltas` exactly the callbacks given to `on_each_delta_cycle` and in `tsteps` exactly those
given to `on_each_time_step`, each in registration order; `cycle(true)` runs the `deltas`
callbacks front to back and `cycle(false)` the `tsteps` callbacks. With callbacks that
record their own label, a `cycle(true)` notification appends exactly the labels registered
for delta cycles, each once and in registration order, and none of the time step labels;
`cycle(false)` does the same with the roles exchanged. One registration appends to its own
list and leaves the other list and all earlier entries as they were. -/
theorem cycle_hook_observer_lists {σ ι : Type} (h : cycle_helper σ) (cb : σ → σ)
    (r : registration σ) (rest : List (registration σ)) (s : σ)
    (l : Bool × ι) (ls : List (Bool × ι)) (calls : List ι) :
    (∃ k : cycle_helper σ, register_all none (r :: rest) = some k ∧
      k.deltas = delta_callbacks (r :: rest) ∧ k.tsteps = tstep_callbacks (r :: rest) ∧
      k.cycle true s = (delta_callbacks (r :: rest)).foldl (fun st func => func st) s ∧
      k.cycle false s = (tstep_callbacks (r :: rest)).foldl (fun st func => func st) s) ∧
    (∃ k : cycle_helper (List ι),
      register_all none ((l :: ls).map recording_registration) = some k ∧
      k.cycle true calls = calls ++ labels_of_kind true (l :: ls) ∧
      k.cycle false calls = calls ++ labels_of_kind false (l :: ls)) ∧
    (∃ k : cycle_helper σ, on_each_delta_cycle (some h) cb = some k ∧
      k.deltas = h.deltas ++ [cb] ∧ k.tsteps = h.tsteps) ∧
    (∃ k : cycle_helper σ, on_each_time_step (some h) cb = some k ∧
      k.tsteps = h.tsteps ++ [cb] ∧ k.deltas = h.deltas) ∧
    (∃ k : cycle_helper σ, on_each_delta_cycle none cb = some k ∧
      k.deltas = [cb] ∧ k.tsteps = []) ∧
    (∃ k : cycle_helper σ, on_each_time_step none cb = some k ∧
      k.tsteps = [cb] ∧ k.deltas = []) := by
  refine ⟨?_, ?_, ⟨_, rfl, rfl, rfl⟩, ⟨_, rfl, rfl, rfl⟩, ⟨_, rfl, rfl, rfl⟩, ⟨_, rfl, rfl, rfl⟩⟩
  · obtain ⟨k, hk, hd, ht⟩ := register_all_from_null (r :: rest) (by simp)
    refine ⟨k, hk, hd, ht, ?_, ?_⟩
    · simp [cycle_helper.cycle, hd]
    · simp [cycle_helper.cycle, ht]
  · obtain ⟨k, hk, hd, ht⟩ :=
      register_all_from_null ((l :: ls).map recording_registration) (by simp)
    refine ⟨k, hk, ?_, ?_⟩
    · simp only [cycle_helper.cycle, if_true, hd, delta_callbacks_recording, foldl_recording]
    · simp only [cycle_helper.cycle, Bool.false_eq_true, if_false, ht,
        tstep_callbacks_recording, foldl_recording]

/-! ## Properties of property registration and attribute lookup -/

theorem rsearch_append_single (c : List sc_attr_base) (a : sc_attr_base) (name : std_string) :
    sc_attr_cltn.rsearch (c ++ [a]) name
      = if name = a.name then some c.length else sc_attr_cltn.rsearch c name := by
  induction c with
  | nil => simp [sc_attr_cltn.rsearch]
  | cons b rest ih =>
    rw [List.cons_append]
    simp only [sc_attr_cltn.rsearch]
    rw [ih]
    by_cases h : name = a.name
    · simp [h]
    · simp [h]

theorem full_name_ne_short (parent nm : std_string) :
    parent ++ [SC_HIERARCHY_CHAR] ++ nm ≠ nm := by
  intro h
  have hl := congrArg List.length h
  simp only [List.length_append, List.length_singleton] at hl
  omega

theorem rfind_of_not_mem (s : std_string) (c : Char) (h : c ∉ s) : rfind s c = none := by
  induction s with
  | nil => rfl
  | cons x xs ih =>
    simp only [List.mem_cons, not_or] at h
    have hx : x ≠ c := fun e => h.1 e.symm
    simp [rfind, ih h.2, hx]

theorem rfind_append_of_some (pre s : std_string) (c : Char) (i : Nat)
    (h : rfind s c = some i) : rfind (pre ++ s) c = some (pre.length + i) := by
  induction pre with
  | nil => simpa using h
  | cons x xs ih =>
    rw [List.cons_append]
    simp only [rfind]
    rw [ih, List.length_cons]
    simp only [Option.some.injEq]
    omega

theorem rfind_full_name (parent nm : std_string) (h : SC_HIERARCHY_CHAR ∉ nm) :
    rfind (parent ++ [SC_HIERARCHY_CHAR] ++ nm) SC_HIERARCHY_CHAR = some parent.length ∧
    (parent ++ [SC_HIERARCHY_CHAR] ++ nm).take parent.length = parent := by
  constructor
  · have h0 : rfind (SC_HIERARCHY_CHAR :: nm) SC_HIERARCHY_CHAR = some 0 := by
      simp [rfind, rfind_of_not_mem nm _ h]
    have := rfind_append_of_some parent (SC_HIERARCHY_CHAR :: nm) SC_HIERARCHY_CHAR 0 h0
    simpa using this
  · simp [List.append_assoc]

theorem sc_find_object_set (objs : List sc_object) (q : Nat) (o o1 : sc_object)
    (name : std_string) (hq : objs.get? q = some o) (hn : o1.name = o.name) :
    sc_find_object (objs.set q o1) name = sc_find_object objs name := by
  induction objs generalizing q with
  | nil => simp at hq
  | cons b rest ih =>
    cases q with
    | zero =>
      simp only [List.get?_cons_zero, Option.some.injEq] at hq
      subst hq
      simp [sc_find_object, hn]
    | succ k =>
      simp only [List.get?_cons_succ] at hq
      simp [sc_find_object, ih k hq]

/-- For every name without a hierarchy separator `find_attribute` returns null. -/
theorem find_attribute_without_separator (simc : sc_simcontext) (name : std_string)
    (h : SC_HIERARCHY_CHAR ∉ name) : find_attribute simc name = none := by
  simp [find_attribute, rfind_of_not_mem name _ h]

/-- What the constructor does when the parent pointer is valid: the property gets the full
name parent name + separator + short name, and it is appended to the parent's attribute
collection under its short name, unless that name is taken there. -/
theorem construct_spec (simc : sc_simcontext) (this : Nat) (nm : std_string) (q : Nat)
    (o : sc_object) (hq : simc.objects.get? q = some o) :
    ∃ p built, property_base.construct simc this nm (some q) = .ok (p, built) ∧
      p.base = ⟨this, nm⟩ ∧ p.m_parent = q ∧
      p.name = o.name ++ [SC_HIERARCHY_CHAR] ++ nm ∧
      built.attributes_of q =
        (if sc_attr_cltn.rsearch o.m_attr_cltn nm = none
          then o.m_attr_cltn ++ [⟨this, nm⟩] else o.m_attr_cltn) ∧
      built.objects = simc.objects.set q
        ⟨o.name, if sc_attr_cltn.rsearch o.m_attr_cltn nm = none
          then o.m_attr_cltn ++ [⟨this, nm⟩] else o.m_attr_cltn⟩ := by
  have hlt : q < simc.objects.length := by
    rcases Nat.lt_or_ge q simc.objects.length with h | h
    · exact h
    · rw [List.get?_eq_none.mpr h] at hq
      cases hq
  simp only [property_base.construct, hq]
  refine ⟨_, _, rfl, rfl, rfl, rfl, ?_, ?_⟩
  · cases hr : sc_attr_cltn.rsearch o.m_attr_cltn nm <;>
      simp [sc_object.add_attribute, sc_attr_cltn.push_back, hr,
        sc_simcontext.attributes_of, hlt]
  · cases hr : sc_attr_cltn.rsearch o.m_attr_cltn nm <;>
      simp [sc_object.add_attribute, sc_attr_cltn.push_back, hr]

theorem rsearch_registered_full_name (o : sc_object) (this : Nat) (nm : std_string)
    (hfull : sc_attr_cltn.rsearch o.m_attr_cltn (o.name ++ [SC_HIERARCHY_CHAR] ++ nm) = none) :
    sc_attr_cltn.rsearch
      (if sc_attr_cltn.rsearch o.m_attr_cltn nm = none
        then o.m_attr_cltn ++ [⟨this, nm⟩] else o.m_attr_cltn)
      (o.name ++ [SC_HIERARCHY_CHAR] ++ nm) = none := by
  split
  · rw [rsearch_append_single]
    simp only [full_name_ne_short, if_false]
    exact hfull
  · exact hfull

/-- With `name()` the full hierarchical name, the destructor of a property just constructed
under a valid parent removes nothing whenever the parent has no attribute registered under
that full name: the context is the one construction left. -/
theorem destroy_full_name_removes_nothing (simc : sc_simcontext) (this : Nat)
    (nm : std_string) (q : Nat) (o : sc_object) (hq : simc.objects.get? q = some o)
    (hfull : sc_attr_cltn.rsearch o.m_attr_cltn (o.name ++ [SC_HIERARCHY_CHAR] ++ nm) = none) :
    ∃ p built, property_base.construct simc this nm (some q) = .ok (p, built) ∧
      property_base.destroy property_base.name built p = built := by
  obtain ⟨p, built, hc, _, hpar, hname, _, hobjs⟩ := construct_spec simc this nm q o hq
  refine ⟨p, built, hc, ?_⟩
  have hlt : q < simc.objects.length := by
    rcases Nat.lt_or_ge q simc.objects.length with h | h
    · exact h
    · rw [List.get?_eq_none.mpr h] at hq
      cases hq
  have hget : built.objects.get? q = some ⟨o.name, if sc_attr_cltn.rsearch o.m_attr_cltn nm = none
      then o.m_attr_cltn ++ [⟨this, nm⟩] else o.m_attr_cltn⟩ := by
    rw [hobjs]
    simp [hlt]
  have hr := rsearch_registered_full_name o this nm hfull
  simp only [property_base.destroy, hpar, hget, hname, sc_object.remove_attribute,
    sc_attr_cltn.remove, hr]
  have hset : built.objects.set q ⟨o.name, if sc_attr_cltn.rsearch o.m_attr_cltn nm = none
      then o.m_attr_cltn ++ [⟨this, nm⟩] else o.m_attr_cltn⟩ = built.objects := by
    rw [hobjs]
    simp
  rw [hset]

/-- A property constructed under a module that `find_object` resolves by its name is not
found by `find_attribute` under its full name, unless the module already had an attribute
registered under that full name: the name is split at the last separator into exactly the
module name, the module is found, and its collection is asked for the full name, while
the property is registered there under its short name. -/
theorem find_attribute_misses_full_name (simc : sc_simcontext) (this : Nat)
    (nm : std_string) (q : Nat) (o : sc_object) (hq : simc.objects.get? q = some o)
    (hsep : SC_HIERARCHY_CHAR ∉ nm) (hfind : find_object simc o.name = some q)
    (hfull : sc_attr_cltn.rsearch o.m_attr_cltn (o.name ++ [SC_HIERARCHY_CHAR] ++ nm) = none) :
    ∃ p built, property_base.construct simc this nm (some q) = .ok (p, built) ∧
      find_attribute built p.name = none := by
  obtain ⟨p, built, hc, _, _, hname, _, hobjs⟩ := construct_spec simc this nm q o hq
  refine ⟨p, built, hc, ?_⟩
  have hlt : q < simc.objects.length := by
    rcases Nat.lt_or_ge q simc.objects.length with h | h
    · exact h
    · rw [List.get?_eq_none.mpr h] at hq
      cases hq
  have hget : built.objects.get? q = some ⟨o.name, if sc_attr_cltn.rsearch o.m_attr_cltn nm = none
      then o.m_attr_cltn ++ [⟨this, nm⟩] else o.m_attr_cltn⟩ := by
    rw [hobjs]
    simp [hlt]
  have hfo : find_object built o.name = some q := by
    unfold find_object at hfind ⊢
    rw [hobjs]
    have hset := sc_find_object_set simc.objects q o
      ⟨o.name, if sc_attr_cltn.rsearch o.m_attr_cltn nm = none
        then o.m_attr_cltn ++ [⟨this, nm⟩] else o.m_attr_cltn⟩ o.name hq rfl
    exact hset.trans hfind
  have hr := rsearch_registered_full_name o this nm hfull
  obtain ⟨h1, h2⟩ := rfind_full_name o.name nm hsep
  simp only [find_attribute, hname, h1, h2, hfo, hget, sc_object.get_attribute,
    sc_attr_cltn.lookup, hr]

/-- C6 (violated by the code): module "top" without attributes; a property with short name
"clk" is constructed under it and destroyed again. Construction registers it in the
collection of "top" under the key "clk" and names it "top.clk"; the destructor asks for
the removal of `name()`, that is "top.clk", which matches no entry, so the attribute is
still in the collection afterwards and the collection is not what it was before. -/
theorem property_base_destroy_leaves_attribute :
    property_base.construct_destroy property_base.name design_top 1 "clk".toList (some 0)
      = .ok (⟨[⟨"top".toList, [⟨1, "clk".toList⟩]⟩], none⟩,
             ⟨⟨1, "clk".toList⟩, "top.clk".toList, 0⟩,
             ⟨[⟨"top".toList, [⟨1, "clk".toList⟩]⟩], none⟩) ∧
    design_top.attributes_of 0 = [] ∧
    sc_simcontext.attributes_of ⟨[⟨"top".toList, [⟨1, "clk".toList⟩]⟩], none⟩ 0
      = [⟨1, "clk".toList⟩] ∧
    sc_simcontext.attributes_of ⟨[⟨"top".toList, [⟨1, "clk".toList⟩]⟩], none⟩ 0
      ≠ design_top.attributes_of 0 ∧
    (sc_attr_cltn.remove [⟨1, "clk".toList⟩] "top.clk".toList).1 = none :=
  ⟨rfl, rfl, rfl, by decide, by decide⟩

/-- Construction under a name that is taken: module "top" already has an attribute "clk"
(object 7). A second "clk" (object 1) is not added to the collection; a destructor that
removes by the short name then removes the attribute of object 7. -/
theorem construct_destroy_with_taken_name :
    property_base.construct_destroy (fun p => p.base.name)
        ⟨[⟨"top".toList, [⟨7, "clk".toList⟩]⟩], none⟩ 1 "clk".toList (some 0)
      = .ok (⟨[⟨"top".toList, [⟨7, "clk".toList⟩]⟩], none⟩,
             ⟨⟨1, "clk".toList⟩, "top.clk".toList, 0⟩,
             ⟨[⟨"top".toList, []⟩], none⟩) :=
  rfl

/-- C9 (violated by the code): a property with short name "clk" is constructed under module
"top". Called with the full name "top.clk", `find_attribute` splits it at the last
separator (position 3) into exactly "top", finds the module, and asks its collection for
the key "top.clk"; the property is registered there under the key "clk", so the result is
null, although a lookup of "clk" in that collection yields the property. -/
theorem find_attribute_misses_constructed_property :
    ∃ p built, property_base.construct design_top 1 "clk".toList (some 0) = .ok (p, built) ∧
      p.name = "top.clk".toList ∧
      rfind p.name SC_HIERARCHY_CHAR = some 3 ∧
      p.name.take 3 = "top".toList ∧
      find_object built "top".toList = some 0 ∧
      built.attributes_of 0 = [p.base] ∧
      sc_attr_cltn.lookup (built.attributes_of 0) "clk".toList = some p.base ∧
      find_attribute built p.name = none :=
  ⟨_, _, rfl, by decide, by decide, by decide, by decide, by decide, by decide, by decide⟩

/-! ## Properties of the `sc_time` extraction operator -/

theorem toNat_ofNat_lt (k : Nat) (hk : k < 55296) : (Char.ofNat k).toNat = k := by
  have hv : k.isValidChar := Or.inl hk
  simp only [Char.ofNat, hv, Char.ofNatAux, Char.toNat, dite_true]
  rfl

theorem char_eq_of_toNat (a b : Char) (h : a.toNat = b.toNat) : a = b := by
  rw [← Char.ofNat_toNat a, ← Char.ofNat_toNat b, h]

theorem tolower_toNat (c : Char) :
    (tolower c).toNat = if 65 ≤ c.toNat ∧ c.toNat ≤ 90 then c.toNat + 32 else c.toNat := by
  by_cases h : 65 ≤ c.toNat ∧ c.toNat ≤ 90
  · simp only [tolower, h, and_self, if_true]
    exact toNat_ofNat_lt _ (by omega)
  · simp only [tolower, h, if_false]

theorem toupper_toNat (c : Char) :
    (toupper c).toNat = if 97 ≤ c.toNat ∧ c.toNat ≤ 122 then c.toNat - 32 else c.toNat := by
  by_cases h : 97 ≤ c.toNat ∧ c.toNat ≤ 122
  · simp only [toupper, h, and_self, if_true]
    exact toNat_ofNat_lt _ (by omega)
  · simp only [toupper, h, if_false]

theorem digit_value_tolower (c : Char) : digit_value (tolower c) = digit_value c := by
  simp only [digit_value, tolower_toNat]
  generalize c.toNat = k
  by_cases h : 65 ≤ k ∧ k ≤ 90
  · have h1 : ¬ (48 ≤ k ∧ k ≤ 57) := by omega
    have h2 : ¬ (97 ≤ k ∧ k ≤ 122) := by omega
    have h3 : ¬ (48 ≤ k + 32 ∧ k + 32 ≤ 57) := by omega
    have h4 : 97 ≤ k + 32 ∧ k + 32 ≤ 122 := by omega
    simp only [h, h1, h2, h3, h4, and_self, if_true, if_false, Option.some.injEq]
    omega
  · simp only [h, if_false]

theorem decimal_digit_facts (c : Char) (h : is_decimal_digit c = true) :
    isspace c = false ∧ tolower c = c ∧ c.toNat ≠ 0 ∧ is_token_char c = true ∧
    digit_value c = some (c.toNat - 48) ∧ c.toNat - 48 < 10 := by
  simp only [is_decimal_digit, Bool.and_eq_true, decide_eq_true_eq] at h
  have hl : ¬ (65 ≤ c.toNat ∧ c.toNat ≤ 90) := by omega
  have hs : isspace c = false := by
    simp only [isspace, Bool.or_eq_false_iff, Bool.and_eq_false_iff, decide_eq_false_iff_not]
    omega
  refine ⟨hs, ?_, by omega, ?_, ?_, by omega⟩
  · simp only [tolower, hl, if_false]
  · simp only [is_token_char, hs, Bool.not_false, Bool.true_and, bne_iff_ne, ne_eq]
    omega
  · simp only [digit_value, h, and_self, if_true]

theorem non_decimal_digit_value (c : Char) (h : is_decimal_digit c ≠ true) :
    ∀ d, digit_value c = some d → 10 ≤ d := by
  intro d hd
  have h0 : ¬ (48 ≤ c.toNat ∧ c.toNat ≤ 57) := by
    intro hh
    apply h
    simp only [is_decimal_digit, Bool.and_eq_true, decide_eq_true_eq]
    exact hh
  simp only [digit_value, h0, if_false] at hd
  by_cases h1 : 97 ≤ c.toNat ∧ c.toNat ≤ 122
  · simp only [h1, and_self, if_true, Option.some.injEq] at hd
    omega
  · simp only [h1, if_false] at hd
    by_cases h2 : 65 ≤ c.toNat ∧ c.toNat ≤ 90
    · simp only [h2, and_self, if_true, Option.some.injEq] at hd
      omega
    · simp only [h2, if_false] at hd
      cases hd

theorem strtoul_digits_stop (base : Nat) (hb : base ≤ 10) (t : std_string) (acc : Nat)
    (ht : t.head?.map is_decimal_digit ≠ some true) :
    strtoul_digits base t acc = (acc, t) := by
  cases t with
  | nil => rfl
  | cons c cs =>
    have hc : is_decimal_digit c ≠ true := by
      intro h
      apply ht
      simp [h]
    have hv := non_decimal_digit_value c hc
    cases hd : digit_value c with
    | none => simp [strtoul_digits, hd]
    | some d =>
      have := hv d hd
      have hlt : ¬ d < base := by omega
      simp [strtoul_digits, hd, hlt]

theorem strtoul_digits_numeral (ds t : std_string) (acc : Nat)
    (hds : ds.all is_decimal_digit = true)
    (ht : t.head?.map is_decimal_digit ≠ some true) :
    strtoul_digits 10 (ds ++ t) acc
      = (ds.foldl (fun a c => a * 10 + (c.toNat - 48)) acc, t) := by
  induction ds generalizing acc with
  | nil => exact strtoul_digits_stop 10 (le_refl _) t acc ht
  | cons d rest ih =>
    simp only [List.all_cons, Bool.and_eq_true] at hds
    obtain ⟨_, _, _, _, hv, hlt⟩ := decimal_digit_facts d hds.1
    simp only [List.cons_append, strtoul_digits, hv, hlt, if_true, List.foldl_cons]
    exact ih _ hds.2

theorem strtoul_is_hex_cons (d : Char) (t : std_string) :
    strtoul_is_hex (d :: t) = (decide (d.toNat = 48) && starts_hex_after_zero t) := by
  cases t with
  | nil => simp [strtoul_is_hex, starts_hex_after_zero]
  | cons x r =>
    cases r with
    | nil => simp [strtoul_is_hex, starts_hex_after_zero]
    | cons h r2 => simp [strtoul_is_hex, starts_hex_after_zero, Bool.and_assoc]

theorem numeral_shape (ds : std_string) (h : is_decimal_numeral ds = true) :
    ∃ d rest, ds = d :: rest ∧ is_decimal_digit d = true ∧
      rest.all is_decimal_digit = true ∧ (d.toNat = 48 → rest = []) := by
  cases ds with
  | nil => simp [is_decimal_numeral] at h
  | cons d rest =>
    simp only [is_decimal_numeral, List.isEmpty_cons, Bool.not_false, Bool.true_and,
      List.all_cons, Bool.and_eq_true, List.head?_cons, Option.map_some', Bool.or_eq_true,
      bne_iff_ne, ne_eq, Option.some.injEq, List.length_cons, beq_iff_eq,
      Nat.add_left_eq_self, List.length_eq_zero] at h
    refine ⟨d, rest, rfl, h.1.1, h.1.2, ?_⟩
    intro h48
    rcases h.2 with h2 | h2
    · exact absurd h48 h2
    · exact h2

theorem strtoul_numeral (ds t : std_string) (hnum : is_decimal_numeral ds = true)
    (hlt : decimal_value ds < U64_MOD)
    (ht : t.head?.map is_decimal_digit ≠ some true)
    (hhex : ¬ (decimal_value ds = 0 ∧ starts_hex_after_zero t = true)) :
    strtoul (ds ++ t) = (decimal_value ds, t) := by
  obtain ⟨d, rest, rfl, hd, hrest, hzero⟩ := numeral_shape ds hnum
  obtain ⟨hsp, _, _, _, hv, hdlt⟩ := decimal_digit_facts d hd
  have hdig : 48 ≤ d.toNat ∧ d.toNat ≤ 57 := by
    simpa [is_decimal_digit] using hd
  have h45 : ¬ d.toNat = 45 := by omega
  have h43 : ¬ d.toNat = 43 := by omega
  have hdrop : List.dropWhile isspace (d :: (rest ++ t)) = d :: (rest ++ t) := by
    simp [List.dropWhile, hsp]
  have hlen : ¬ t.length = (d :: (rest ++ t)).length := by
    simp only [List.length_cons, List.length_append]
    omega
  by_cases h48 : d.toNat = 48
  · have hr := hzero h48
    subst hr
    have hval : decimal_value [d] = 0 := by simp [decimal_value, h48]
    have hx : starts_hex_after_zero t = false := by
      cases hs : starts_hex_after_zero t
      · rfl
      · exact absurd ⟨hval, hs⟩ hhex
    have hhx : strtoul_is_hex (d :: t) = false := by
      rw [strtoul_is_hex_cons, hx]
      simp
    have hdigits : strtoul_digits 8 (d :: t) 0 = (0, t) := by
      have h8 : d.toNat - 48 < 8 := by omega
      simp only [strtoul_digits, hv, h8, if_true]
      rw [strtoul_digits_stop 8 (by omega) t _ ht]
      simp [h48]
    simp only [List.nil_append, List.append_nil] at hdrop hlen ⊢
    simp only [strtoul, List.cons_append, List.nil_append, hdrop, List.head?_cons,
      Option.map_some', Option.some.injEq, h45, h43, or_self, if_false, hhx,
      Bool.false_eq_true]
    simp only [h48, if_true, hdigits, hlen, if_false, hval]
    simp [U64_MOD]
  · have hhx : strtoul_is_hex (d :: (rest ++ t)) = false := by
      rw [strtoul_is_hex_cons]
      simp [h48]
    have hdigits := strtoul_digits_numeral (d :: rest) t 0
      (by simp [hd, hrest]) ht
    have hval : List.foldl (fun a c => a * 10 + (c.toNat - 48)) 0 (d :: rest)
        = decimal_value (d :: rest) := rfl
    rw [hval] at hdigits
    have hnot : ¬ U64_MOD ≤ decimal_value (d :: rest) := by omega
    simp only [List.cons_append] at hdigits
    simp only [strtoul, List.cons_append, hdrop, List.head?_cons,
      Option.map_some', Option.some.injEq, h45, h43, or_self, if_false, hhx, h48,
      Bool.false_eq_true, hdigits, hlen, hnot]

theorem token_char_facts (c : Char) (h : is_token_char c = true) :
    isspace c = false ∧ c.toNat ≠ 0 ∧ (tolower c).toNat ≠ 0 := by
  simp only [is_token_char, Bool.and_eq_true, Bool.not_eq_true', bne_iff_ne, ne_eq] at h
  refine ⟨h.1, h.2, ?_⟩
  rw [tolower_toNat]
  split <;> omega

theorem extract_of_token (tok : std_string) (h : tok.all is_token_char = true) :
    operator_extract_sc_time tok = (sc_time_from_token tok, []) := by
  have hall : ∀ c ∈ tok, isspace c = false := by
    intro c hc
    exact (token_char_facts c (List.all_eq_true.mp h c hc)).1
  have h1 : tok.dropWhile isspace = tok := by
    cases tok with
    | nil => rfl
    | cons c cs => simp [List.dropWhile, hall c (List.mem_cons_self _ _)]
  have h2 : tok.takeWhile (fun c => !isspace c) = tok := by
    rw [List.takeWhile_eq_self_iff]
    intro c hc
    simp [hall c hc]
  have h3 : tok.dropWhile (fun c => !isspace c) = [] := by
    rw [List.dropWhile_eq_nil_iff]
    intro c hc
    simp [hall c hc]
  simp only [operator_extract_sc_time, h1, h2, h3]

theorem c_str_to_lower (tok : std_string) (h : tok.all is_token_char = true) :
    c_str (to_lower tok) = to_lower tok := by
  unfold c_str
  rw [List.takeWhile_eq_self_iff]
  intro c hc
  simp only [to_lower, List.mem_map] at hc
  obtain ⟨b, hb, rfl⟩ := hc
  have := (token_char_facts b (List.all_eq_true.mp h b hb)).2.2
  simpa using this

theorem to_lower_numeral_append (ds w : std_string) (hds : ds.all is_decimal_digit = true) :
    to_lower (ds ++ w) = ds ++ to_lower w := by
  unfold to_lower
  rw [List.map_append]
  congr 1
  have : ∀ c ∈ ds, tolower c = id c := by
    intro c hc
    exact (decimal_digit_facts c (List.all_eq_true.mp hds c hc)).2.1
  rw [List.map_congr_left this, List.map_id]

theorem numeral_token_chars (ds : std_string) (hds : ds.all is_decimal_digit = true) :
    ds.all is_token_char = true := by
  rw [List.all_eq_true] at hds ⊢
  intro c hc
  exact (decimal_digit_facts c (hds c hc)).2.2.2.1

theorem is_decimal_digit_tolower (c : Char) :
    is_decimal_digit (tolower c) = is_decimal_digit c := by
  simp only [is_decimal_digit, tolower_toNat]
  by_cases h : 65 ≤ c.toNat ∧ c.toNat ≤ 90
  · simp only [h, and_self, if_true]
    have h1 : ¬ c.toNat ≤ 57 := by omega
    have h2 : ¬ c.toNat + 32 ≤ 57 := by omega
    simp [h1, h2]
  · simp only [h, if_false]

theorem head_to_lower_not_digit (s : std_string)
    (h : s.head?.map is_decimal_digit ≠ some true) :
    (to_lower s).head?.map is_decimal_digit ≠ some true := by
  cases s with
  | nil => simp [to_lower]
  | cons c cs =>
    simpa [to_lower, is_decimal_digit_tolower] using h

theorem starts_hex_to_lower (s : std_string) :
    starts_hex_after_zero (to_lower s) = starts_hex_after_zero s := by
  cases s with
  | nil => rfl
  | cons x r =>
    cases r with
    | nil => rfl
    | cons h r2 =>
      simp only [to_lower, List.map_cons, starts_hex_after_zero, digit_value_tolower,
        tolower_toNat]
      congr 1
      by_cases hx : 65 ≤ x.toNat ∧ x.toNat ≤ 90
      · simp only [hx, and_self, if_true]
        by_cases h88 : x.toNat = 88
        · simp [h88]
        · have h1 : ¬ x.toNat + 32 = 120 := by omega
          have h2 : ¬ x.toNat + 32 = 88 := by omega
          have h3 : ¬ x.toNat = 120 := by omega
          simp [h1, h2, h3, h88]
      · simp only [hx, if_false]

theorem u64_to_double_exact (n : Nat) (h : n < 2 ^ 53) : u64_to_double n = n := by
  unfold u64_to_double
  rw [if_pos h]

/-- What `strtoul` makes of a token that consists of a decimal numeral and a suffix. -/
theorem strtoul_token (ds s : std_string) (hnum : is_decimal_numeral ds = true)
    (hn : decimal_value ds < 2 ^ 53) (hs : s.all is_token_char = true)
    (hdig : s.head?.map is_decimal_digit ≠ some true)
    (hhex : ¬ (decimal_value ds = 0 ∧ starts_hex_after_zero s = true)) :
    strtoul (c_str (to_lower (ds ++ s))) = (decimal_value ds, to_lower s) := by
  obtain ⟨d, rest, hshape, hd, hrest, _⟩ := numeral_shape ds hnum
  have hds : ds.all is_decimal_digit = true := by
    rw [hshape]
    simp [hd, hrest]
  have htok : (ds ++ s).all is_token_char = true := by
    rw [List.all_append, numeral_token_chars ds hds, hs]
    rfl
  rw [c_str_to_lower _ htok, to_lower_numeral_append ds s hds]
  apply strtoul_numeral ds (to_lower s) hnum
  · have : (2 : Nat) ^ 53 < U64_MOD := by norm_num [U64_MOD]
    omega
  · exact head_to_lower_not_digit s hdig
  · rw [starts_hex_to_lower]
    exact hhex

theorem head_digit_to_lower (s : std_string) :
    (to_lower s).head?.map is_decimal_digit = s.head?.map is_decimal_digit := by
  cases s with
  | nil => rfl
  | cons c cs => simp [to_lower, is_decimal_digit_tolower]

theorem to_lower_of_spelled (w u : std_string)
    (hu : ∀ l ∈ u, 97 ≤ l.toNat ∧ l.toNat ≤ 122) (h : spelled_any_case w u = true) :
    to_lower w = u ∧ w.all is_token_char = true := by
  induction w generalizing u with
  | nil =>
    cases u with
    | nil => exact ⟨rfl, rfl⟩
    | cons l ls => simp [spelled_any_case] at h
  | cons c cs ih =>
    cases u with
    | nil => simp [spelled_any_case] at h
    | cons l ls =>
      simp only [spelled_any_case, Bool.and_eq_true, Bool.or_eq_true, beq_iff_eq] at h
      have hl := hu l (List.mem_cons_self _ _)
      obtain ⟨ih1, ih2⟩ := ih ls (fun x hx => hu x (List.mem_cons_of_mem _ hx)) h.2
      have hc : c.toNat = l.toNat ∨ c.toNat = l.toNat - 32 := by
        rcases h.1 with e | e
        · exact Or.inl (by rw [e])
        · right
          rw [e, toupper_toNat]
          simp [hl]
      have hlow : tolower c = l := by
        apply char_eq_of_toNat
        rw [tolower_toNat]
        rcases hc with e | e
        · have : ¬ (65 ≤ c.toNat ∧ c.toNat ≤ 90) := by omega
          simp only [this, if_false]
          exact e
        · have : 65 ≤ c.toNat ∧ c.toNat ≤ 90 := by omega
          simp only [this, and_self, if_true]
          omega
      have htok : is_token_char c = true := by
        have h0 : c.toNat ≠ 0 := by omega
        have hsp : isspace c = false := by
          simp only [isspace, Bool.or_eq_false_iff, Bool.and_eq_false_iff,
            decide_eq_false_iff_not]
          omega
        simp [is_token_char, hsp, h0]
      refine ⟨?_, ?_⟩
      · simp only [to_lower, List.map_cons, hlow]
        congr 1
      · simp only [List.all_cons, htok, Bool.true_and]
        exact ih2

theorem spelled_of_to_lower (s u : std_string)
    (hu : ∀ l ∈ u, 97 ≤ l.toNat ∧ l.toNat ≤ 122) (h : to_lower s = u) :
    spelled_any_case s u = true := by
  induction s generalizing u with
  | nil =>
    cases u with
    | nil => rfl
    | cons l ls => simp [to_lower] at h
  | cons c cs ih =>
    cases u with
    | nil => simp [to_lower] at h
    | cons l ls =>
      simp only [to_lower, List.map_cons, List.cons.injEq] at h
      have hl := hu l (List.mem_cons_self _ _)
      have hrest := ih ls (fun x hx => hu x (List.mem_cons_of_mem _ hx)) h.2
      have hnat : (tolower c).toNat = l.toNat := by rw [h.1]
      rw [tolower_toNat] at hnat
      have hc : c = l ∨ c = toupper l := by
        by_cases hup : 65 ≤ c.toNat ∧ c.toNat ≤ 90
        · right
          simp only [hup, and_self, if_true] at hnat
          apply char_eq_of_toNat
          rw [toupper_toNat]
          simp only [hl, and_self, if_true]
          omega
        · left
          simp only [hup, if_false] at hnat
          exact char_eq_of_toNat _ _ hnat
      simp only [spelled_any_case, Bool.and_eq_true, Bool.or_eq_true, beq_iff_eq]
      exact ⟨hc, hrest⟩

theorem unit_suffix_facts (u : std_string) (tu : sc_time_unit)
    (hu : (u, tu) ∈ time_unit_suffixes) :
    (∀ l ∈ u, 97 ≤ l.toNat ∧ l.toNat ≤ 122) ∧
    u.head?.map is_decimal_digit ≠ some true ∧
    starts_hex_after_zero u = false := by
  simp only [time_unit_suffixes, List.mem_cons, Prod.mk.injEq, List.mem_singleton,
    List.not_mem_nil, or_false] at hu
  rcases hu with ⟨rfl, _⟩ | ⟨rfl, _⟩ | ⟨rfl, _⟩ | ⟨rfl, _⟩ | ⟨rfl, _⟩ <;>
    exact ⟨by decide, by decide, by decide⟩

theorem unit_suffix_select (u : std_string) (tu : sc_time_unit) (n v : Nat)
    (hu : (u, tu) ∈ time_unit_suffixes) :
    (if u = "ps".toList then sc_time.of_unit n .SC_PS
      else if u = "ns".toList then sc_time.of_unit n .SC_NS
      else if u = "us".toList then sc_time.of_unit n .SC_US
      else if u = "ms".toList then sc_time.of_unit n .SC_MS
      else if u = "s".toList then sc_time.of_unit n .SC_SEC
      else sc_time.of_value v true) = sc_time.of_unit n tu := by
  simp only [time_unit_suffixes, List.mem_cons, Prod.mk.injEq, List.mem_singleton,
    List.not_mem_nil, or_false] at hu
  rcases hu with ⟨rfl, rfl⟩ | ⟨rfl, rfl⟩ | ⟨rfl, rfl⟩ | ⟨rfl, rfl⟩ | ⟨rfl, rfl⟩ <;> rfl

theorem unit_suffix_reject (t : std_string) (n v : Nat)
    (h : ∀ u tu, (u, tu) ∈ time_unit_suffixes → t ≠ u) :
    (if t = "ps".toList then sc_time.of_unit n .SC_PS
      else if t = "ns".toList then sc_time.of_unit n .SC_NS
      else if t = "us".toList then sc_time.of_unit n .SC_US
      else if t = "ms".toList then sc_time.of_unit n .SC_MS
      else if t = "s".toList then sc_time.of_unit n .SC_SEC
      else sc_time.of_value v true) = sc_time.of_value v true := by
  have h1 := h "ps".toList .SC_PS (by simp [time_unit_suffixes])
  have h2 := h "ns".toList .SC_NS (by simp [time_unit_suffixes])
  have h3 := h "us".toList .SC_US (by simp [time_unit_suffixes])
  have h4 := h "ms".toList .SC_MS (by simp [time_unit_suffixes])
  have h5 := h "s".toList .SC_SEC (by simp [time_unit_suffixes])
  rw [if_neg h1, if_neg h2, if_neg h3, if_neg h4, if_neg h5]

/-- Every natural number is denoted by a decimal numeral without leading zero. -/
theorem decimal_numeral_exists (n : Nat) :
    ∃ ds, is_decimal_numeral ds = true ∧ decimal_value ds = n := by
  have key : ∀ m : Nat, ∃ ds : std_string, ds ≠ [] ∧ ds.all is_decimal_digit = true ∧
      (m ≠ 0 → ds.head?.map Char.toNat ≠ some 48) ∧ (m = 0 → ds.length = 1) ∧
      decimal_value ds = m := by
    intro m
    induction m using Nat.strong_induction_on with
    | _ m ih =>
      by_cases hm : m < 10
      · refine ⟨[Char.ofNat (48 + m)], by simp, ?_, ?_, fun _ => rfl, ?_⟩
        · simp only [List.all_cons, List.all_nil, Bool.and_true, is_decimal_digit,
            toNat_ofNat_lt (48 + m) (by omega), Bool.and_eq_true, decide_eq_true_eq]
          omega
        · intro h0
          simp only [List.head?_cons, Option.map_some', ne_eq, Option.some.injEq,
            toNat_ofNat_lt (48 + m) (by omega)]
          omega
        · simp only [decimal_value, List.foldl_cons, List.foldl_nil,
            toNat_ofNat_lt (48 + m) (by omega)]
          omega
      · obtain ⟨ds, hne, hall, hhead, _, hv⟩ := ih (m / 10) (by omega)
        have hq : m / 10 ≠ 0 := by omega
        refine ⟨ds ++ [Char.ofNat (48 + m % 10)], by simp, ?_, ?_, ?_, ?_⟩
        · simp only [List.all_append, hall, List.all_cons, List.all_nil, Bool.and_true,
            Bool.true_and, is_decimal_digit, toNat_ofNat_lt (48 + m % 10) (by omega),
            Bool.and_eq_true, decide_eq_true_eq]
          omega
        · intro _
          cases ds with
          | nil => exact absurd rfl hne
          | cons d r => simpa using hhead hq
        · intro h0
          omega
        · simp only [decimal_value, List.foldl_append, List.foldl_cons, List.foldl_nil,
            toNat_ofNat_lt (48 + m % 10) (by omega)]
          have : List.foldl (fun acc c => acc * 10 + (c.toNat - 48)) 0 ds = m / 10 := hv
          rw [this]
          omega
  obtain ⟨ds, hne, hall, hhead, hzero, hv⟩ := key n
  refine ⟨ds, ?_, hv⟩
  cases ds with
  | nil => exact absurd rfl hne
  | cons d r =>
    simp only [is_decimal_numeral, List.isEmpty_cons, Bool.not_false, Bool.true_and, hall,
      List.head?_cons, Option.map_some', Bool.or_eq_true, bne_iff_ne, ne_eq,
      Option.some.injEq, beq_iff_eq]
    by_cases h0 : n = 0
    · exact Or.inr (hzero h0)
    · left
      simpa using hhead h0

/-- C10 (as amended): the extraction operator parses a token as count followed by unit.
For every natural number `n < 2^53` written as a decimal numeral `ds` without leading zero
(or the single digit 0) and every suffix `w` that spells one of ps, ns, us, ms, s in any
mix of upper and lower case, the token `ds ++ w` yields the time of `n` units of that
kind and leaves nothing unread. For the same numeral followed by a suffix `s` (possibly
empty) of token characters that spells none of the five units, does not begin with a
decimal digit and, when `n = 0`, does not begin with x or X followed by a hexadecimal
digit, it yields `sc_time(n, true)`, the value of the (value, scale) constructor with the
scale flag set, rather than an error. -/
theorem sc_time_extract_count_unit (ds : std_string) (n : Nat)
    (hnum : is_decimal_numeral ds = true) (hval : decimal_value ds = n) (hn : n < 2 ^ 53) :
    (∀ u tu w, (u, tu) ∈ time_unit_suffixes → spelled_any_case w u = true →
      operator_extract_sc_time (ds ++ w) = (sc_time.of_unit n tu, [])) ∧
    (∀ s, s.all is_token_char = true → s.head?.map is_decimal_digit ≠ some true →
      ¬ (n = 0 ∧ starts_hex_after_zero s = true) →
      spells_time_unit s = false →
      operator_extract_sc_time (ds ++ s) = (sc_time.of_value n true, [])) := by
  obtain ⟨d, rest, hshape, hd, hrest, _⟩ := numeral_shape ds hnum
  have hds : ds.all is_decimal_digit = true := by
    rw [hshape]
    simp [hd, hrest]
  subst hval
  constructor
  · intro u tu w hu hw
    obtain ⟨hlow, hudig, huhex⟩ := unit_suffix_facts u tu hu
    obtain ⟨hlower, htok⟩ := to_lower_of_spelled w u hlow hw
    have hdig : w.head?.map is_decimal_digit ≠ some true := by
      rw [← head_digit_to_lower, hlower]
      exact hudig
    have hhex : ¬ (decimal_value ds = 0 ∧ starts_hex_after_zero w = true) := by
      rw [← starts_hex_to_lower, hlower, huhex]
      simp
    have hall : (ds ++ w).all is_token_char = true := by
      rw [List.all_append, numeral_token_chars ds hds, htok]
      rfl
    rw [extract_of_token _ hall]
    simp only [sc_time_from_token, strtoul_token ds w hnum hn htok hdig hhex, hlower,
      u64_to_double_exact _ hn]
    rw [unit_suffix_select u tu _ _ hu]
  · intro s hs hdig hhex hsp
    have hother : ∀ u tu, (u, tu) ∈ time_unit_suffixes → spelled_any_case s u = false := by
      intro u tu hu
      cases hc : spelled_any_case s u
      · rfl
      · have : spells_time_unit s = true := by
          simp only [spells_time_unit, List.any_eq_true]
          exact ⟨(u, tu), hu, hc⟩
        rw [hsp] at this
        cases this
    have hall : (ds ++ s).all is_token_char = true := by
      rw [List.all_append, numeral_token_chars ds hds, hs]
      rfl
    have hne : ∀ u tu, (u, tu) ∈ time_unit_suffixes → to_lower s ≠ u := by
      intro u tu hu heq
      have := spelled_of_to_lower s u (unit_suffix_facts u tu hu).1 heq
      rw [hother u tu hu] at this
      cases this
    rw [extract_of_token _ hall]
    simp only [sc_time_from_token, strtoul_token ds s hnum hn hs hdig hhex]
    rw [unit_suffix_reject _ _ _ hne]

/-- Witness for C10 (as amended): the numeral "10" with the suffixes "NS", "fs" and none. -/
theorem sc_time_extract_count_unit_witness :
    operator_extract_sc_time "10NS".toList = (sc_time.of_unit 10 .SC_NS, []) ∧
    operator_extract_sc_time "10fs".toList = (sc_time.of_value 10 true, []) ∧
    operator_extract_sc_time "10".toList = (sc_time.of_value 10 true, []) :=
  have h := sc_time_extract_count_unit "10".toList 10 (by decide) (by decide) (by decide)
  ⟨h.1 "ns".toList .SC_NS "NS".toList (by decide) (by decide),
   h.2 "fs".toList (by decide) (by decide) (by decide) (by decide),
   h.2 [] (by decide) (by decide) (by decide) (by decide)⟩

/-- C10 as stated fails. The numeral "0" followed by the suffix "x1f", which spells none
of the five units, is read as the hexadecimal number 31, not as 0. And a numeral without
suffix, "10", yields `sc_time(10, true)`: with the scale flag set the value counts
default time units, 10000 resolution ticks under the SystemC defaults (default time unit
of 1000 ticks), whereas 10 raw ticks would be `sc_time(10, false)`. -/
theorem sc_time_extract_other_suffix_counterexample :
    is_decimal_numeral "0".toList = true ∧ decimal_value "0".toList = 0 ∧
    spells_time_unit "x1f".toList = false ∧
    (operator_extract_sc_time ("0".toList ++ "x1f".toList)).1 = sc_time.of_value 31 true ∧
    (operator_extract_sc_time ("0".toList ++ "x1f".toList)).1 ≠ sc_time.of_value 0 false ∧
    (operator_extract_sc_time ("0".toList ++ "x1f".toList)).1 ≠ sc_time.of_value 0 true ∧
    is_decimal_numeral "10".toList = true ∧ decimal_value "10".toList = 10 ∧
    (operator_extract_sc_time "10".toList).1 = sc_time.of_value 10 true ∧
    (operator_extract_sc_time "10".toList).1 ≠ sc_time.of_value 10 false ∧
    sc_time_value_ticks 1000 10 true = 10000 ∧
    sc_time_value_ticks 1000 10 false = 10 :=
  ⟨by decide, by decide, by decide, by decide, by decide, by decide, by decide, by decide,
    by decide, by decide, by decide, by decide⟩

/-! ## Properties of `tlm_transaction_to_str` -/

theorem digit_char_hex (d : Nat) (hd : d < 16) :
    is_lower_hex_digit (digit_char d) = true ∧ digit_value (digit_char d) = some d := by
  by_cases h : d < 10
  · have ht : (Char.ofNat (48 + d)).toNat = 48 + d := toNat_ofNat_lt _ (by omega)
    have h1 : 48 ≤ 48 + d ∧ 48 + d ≤ 57 := by omega
    simp only [digit_char, h, if_true, is_lower_hex_digit, digit_value, ht, h1, and_self,
      decide_True, Bool.and_self, Bool.true_or, Option.some.injEq, true_and]
    omega
  · have ht : (Char.ofNat (87 + d)).toNat = 87 + d := toNat_ofNat_lt _ (by omega)
    have h1 : ¬ (48 ≤ 87 + d ∧ 87 + d ≤ 57) := by omega
    have h2 : 97 ≤ 87 + d ∧ 87 + d ≤ 122 := by omega
    have h3 : 97 ≤ 87 + d ∧ 87 + d ≤ 102 := by omega
    simp only [digit_char, h, if_false, is_lower_hex_digit, digit_value, ht, h1, h2, h3,
      and_self, decide_True, Bool.and_self, Bool.or_true, if_true, Option.some.injEq,
      true_and]
    omega

theorem hex_value_append_single (ds : std_string) (c : Char) :
    hex_value (ds ++ [c]) = hex_value ds * 16 + (digit_value c).getD 0 := by
  simp [hex_value, List.foldl_append]

theorem uint_digits_hex (fuel k v : Nat) (hk : 1 ≤ k) (hf : k ≤ fuel) (hv : v < 16 ^ k) :
    1 ≤ (uint_digits 16 fuel v).length ∧ (uint_digits 16 fuel v).length ≤ k ∧
    (uint_digits 16 fuel v).all is_lower_hex_digit = true ∧
    hex_value (uint_digits 16 fuel v) = v := by
  induction fuel generalizing k v with
  | zero => omega
  | succ fuel ih =>
    by_cases h : v < 16
    · obtain ⟨h1, h2⟩ := digit_char_hex v h
      simp only [uint_digits, h, if_true, List.length_singleton, List.all_cons, h1,
        List.all_nil, Bool.and_self, true_and, le_refl]
      refine ⟨hk, ?_⟩
      simp [hex_value, h2]
    · have hk2 : 2 ≤ k := by
        rcases Nat.lt_or_ge k 2 with hlt | hge
        · have : k = 1 := by omega
          subst this
          simp at hv
          omega
        · exact hge
      have hdiv : v / 16 < 16 ^ (k - 1) := by
        have hpow : 16 ^ k = 16 ^ (k - 1) * 16 := by
          rw [← Nat.pow_succ]
          congr 1
          omega
        rw [hpow] at hv
        exact Nat.div_lt_of_lt_mul (by rw [Nat.mul_comm]; exact hv)
      obtain ⟨i1, i2, i3, i4⟩ := ih (k - 1) (v / 16) (by omega) (by omega) hdiv
      obtain ⟨d1, d2⟩ := digit_char_hex (v % 16) (Nat.mod_lt _ (by omega))
      simp only [uint_digits, h, if_false, List.length_append, List.length_singleton,
        List.all_append, i3, List.all_cons, d1, List.all_nil, Bool.and_self,
        hex_value_append_single, i4, d2, Option.getD_some, true_and]
      refine ⟨by omega, by omega, ?_⟩
      omega

theorem hex_value_leading_zeros (m : Nat) (ds : std_string) :
    hex_value (List.replicate m '0' ++ ds) = hex_value ds := by
  have key : ∀ m : Nat, List.foldl (fun acc c => acc * 16 + (digit_value c).getD 0) 0
      (List.replicate m '0') = 0 := by
    intro m
    induction m with
    | zero => rfl
    | succ m ih =>
      rw [List.replicate_succ', List.foldl_append, ih]
      decide
  simp only [hex_value, List.foldl_append, key]

/-- The text written for a number below `16^w` with width `w`, fill '0', in hexadecimal:
exactly `w` lowercase hexadecimal digits that denote the number. -/
theorem padded_hex (w v : Nat) (hw : 1 ≤ w) (hw64 : w ≤ 64) (hv : v < 16 ^ w) :
    (List.replicate (w - (uint_digits 16 64 v).length) '0' ++ uint_digits 16 64 v).length = w ∧
    (List.replicate (w - (uint_digits 16 64 v).length) '0'
      ++ uint_digits 16 64 v).all is_lower_hex_digit = true ∧
    hex_value (List.replicate (w - (uint_digits 16 64 v).length) '0'
      ++ uint_digits 16 64 v) = v := by
  obtain ⟨h1, h2, h3, h4⟩ := uint_digits_hex 64 w v hw hw64 hv
  refine ⟨?_, ?_, ?_⟩
  · simp only [List.length_append, List.length_replicate]
    omega
  · rw [List.all_append, h3, Bool.and_true, List.all_eq_true]
    intro c hc
    rw [List.eq_of_mem_replicate hc]
    decide
  · rw [hex_value_leading_zeros, h4]

theorem byte_text_spec (b : Nat) :
    (byte_text b).length = 2 ∧ (byte_text b).all is_lower_hex_digit = true ∧
    hex_value (byte_text b) = b % 256 := by
  have hb : b % 256 % U64_MOD = b % 256 := by
    apply Nat.mod_eq_of_lt
    have : b % 256 < 256 := Nat.mod_lt _ (by omega)
    have : (256 : Nat) < U64_MOD := by norm_num [U64_MOD]
    omega
  have := padded_hex 2 (b % 256) (by omega) (by omega)
    (by have : b % 256 < 256 := Nat.mod_lt _ (by omega); norm_num; exact this)
  simpa [byte_text, stringstream.padded, stringstream.set_fill, stringstream.set_width,
    stringstream.set_hex, stringstream.new, hb] using this

theorem address_text_spec (a : Nat) :
    (address_text a).length = 16 ∧ (address_text a).all is_lower_hex_digit = true ∧
    hex_value (address_text a) = a % U64_MOD := by
  have hlt : a % U64_MOD < 16 ^ 16 := by
    have : a % U64_MOD < U64_MOD := Nat.mod_lt _ (by norm_num [U64_MOD])
    have h2 : U64_MOD = 16 ^ 16 := by norm_num [U64_MOD]
    omega
  have := padded_hex 16 (a % U64_MOD) (by omega) (by omega) hlt
  simpa [address_text, stringstream.padded, stringstream.set_fill, stringstream.set_width,
    stringstream.set_hex, stringstream.new] using this

theorem put_byte_spec (ss : stringstream) (b : Nat) (hhex : ss.hex = true) :
    ((ss.set_width 2).set_fill '0').put_uint (b % 256)
      = ⟨ss.buf ++ byte_text b, 0, '0', true⟩ := by
  simp [stringstream.put_uint, stringstream.set_width, stringstream.set_fill,
    stringstream.padded, byte_text, hhex, stringstream.new, stringstream.set_hex]

theorem put_str_plain (ss : stringstream) (s : std_string) (hw : ss.width = 0) :
    ss.put_str s = { ss with buf := ss.buf ++ s } := by
  simp [stringstream.put_str, stringstream.padded, hw]

theorem intercalate_cons_cons (sep x y : std_string) (rest : List std_string) :
    List.intercalate sep (x :: y :: rest) = x ++ sep ++ List.intercalate sep (y :: rest) := by
  simp [List.intercalate]

theorem tlm_data_loop_spec (size k : Nat) (c : List Nat) (ss : stringstream)
    (hc : c.length = k) (hk : k ≤ size) (hhex : ss.hex = true) (hw : ss.width = 0) :
    (tlm_data_loop size k c ss).buf
      = ss.buf ++ List.intercalate " ".toList (c.map byte_text) ∧
    (tlm_data_loop size k c ss).width = 0 := by
  induction k generalizing c ss with
  | zero =>
    have : c = [] := List.length_eq_zero.mp hc
    subst this
    exact ⟨by simp [tlm_data_loop, List.intercalate], hw⟩
  | succ k ih =>
    cases c with
    | nil => simp at hc
    | cons b rest =>
      have hrest : rest.length = k := by simpa using hc
      simp only [tlm_data_loop, List.headD_cons, List.tail_cons, put_byte_spec ss b hhex]
      cases k with
      | zero =>
        have : rest = [] := List.length_eq_zero.mp hrest
        subst this
        have hi : ¬ (size - (0 + 1) ≠ size - 1) := by simp
        simp only [hi, if_false, tlm_data_loop]
        exact ⟨by simp [List.intercalate], trivial⟩
      | succ j =>
        have hi : size - (j + 1 + 1) ≠ size - 1 := by omega
        simp only [hi, ne_eq, not_false_eq_true, if_true]
        rw [put_str_plain _ _ rfl]
        obtain ⟨h1, h2⟩ := ih rest ⟨(ss.buf ++ byte_text b) ++ " ".toList, 0, '0', true⟩
          hrest (by omega) rfl rfl
        refine ⟨?_, h2⟩
        rw [h1]
        cases rest with
        | nil => simp at hrest
        | cons b2 r2 =>
          simp only [List.map_cons, intercalate_cons_cons, List.append_assoc]

theorem intercalate_length (sep : std_string) (xs : List std_string) (w : Nat)
    (hx : ∀ x ∈ xs, x.length = w) (hne : 1 ≤ xs.length) :
    (List.intercalate sep xs).length = xs.length * w + (xs.length - 1) * sep.length := by
  induction xs with
  | nil => simp at hne
  | cons x rest ih =>
    cases rest with
    | nil =>
      simp [List.intercalate, hx x (List.mem_cons_self _ _)]
    | cons y r =>
      rw [intercalate_cons_cons]
      have hrec := ih (fun z hz => hx z (List.mem_cons_of_mem _ hz)) (by simp)
      simp only [List.length_append, hrec, hx x (List.mem_cons_self _ _), List.length_cons]
      simp only [Nat.add_sub_cancel]
      ring

theorem forall₂_byte_text (c : List Nat) :
    List.Forall₂ (fun t b => t.length = 2 ∧ t.all is_lower_hex_digit = true ∧
      hex_value t = b % 256) (c.map byte_text) c := by
  induction c with
  | nil => exact List.Forall₂.nil
  | cons b rest ih => exact List.Forall₂.cons (byte_text_spec b) ih

theorem transaction_header (tx : tlm_generic_payload) (tag : std_string) :
    ((((((stringstream.new.put_str tag).put_str "0x".toList).set_hex).set_width 16).set_fill
        '0').put_uint tx.get_address).put_str " [".toList
      = ⟨tag ++ "0x".toList ++ address_text tx.get_address ++ " [".toList, 0, '0', true⟩ := by
  simp [stringstream.put_uint, stringstream.put_str, stringstream.set_width,
    stringstream.set_fill, stringstream.padded, address_text, stringstream.new,
    stringstream.set_hex]

theorem transaction_tag (tx : tlm_generic_payload) :
    (if tx.get_command = TLM_READ_COMMAND then stringstream.new.put_str "RD ".toList
      else if tx.get_command = TLM_WRITE_COMMAND then stringstream.new.put_str "WR ".toList
      else stringstream.new.put_str "IG ".toList)
      = stringstream.new.put_str
          (if tx.get_command = TLM_READ_COMMAND then "RD ".toList
            else if tx.get_command = TLM_WRITE_COMMAND then "WR ".toList
            else "IG ".toList) := by
  split
  · rfl
  · split <;> rfl

/-- C11: for every transaction payload whose buffer holds exactly the number of bytes its
data length says, `tlm_transaction_to_str` returns the command tag ("RD " for a read,
"WR " for a write, "IG " for every other command), "0x", 16 lowercase hexadecimal digits
denoting the 64 bit address, " [", the data section, "]", " (", the response string, ")".
The data section is "<no data>" for data length 0; otherwise it is the bytes in buffer
order, each written as two lowercase hexadecimal digits denoting it, joined by single
spaces (nothing in front, nothing behind), hence `3n - 1` characters for `n ≥ 1` bytes. -/
theorem tlm_transaction_to_str_format (tx : tlm_generic_payload)
    (hlen : tx.get_data_ptr.length = tx.get_data_length) :
    ∃ (tag addr : std_string) (bytes : List std_string),
      (tx.get_command = TLM_READ_COMMAND → tag = "RD ".toList) ∧
      (tx.get_command = TLM_WRITE_COMMAND → tag = "WR ".toList) ∧
      (tx.get_command ≠ TLM_READ_COMMAND → tx.get_command ≠ TLM_WRITE_COMMAND →
        tag = "IG ".toList) ∧
      addr.length = 16 ∧ addr.all is_lower_hex_digit = true ∧
      hex_value addr = tx.get_address ∧
      List.Forall₂ (fun t b => t.length = 2 ∧ t.all is_lower_hex_digit = true ∧
        hex_value t = b % 256) bytes tx.get_data_ptr ∧
      tlm_transaction_to_str tx
        = tag ++ "0x".toList ++ addr ++ " [".toList ++
          (if tx.get_data_length = 0 then "<no data>".toList
            else List.intercalate " ".toList bytes) ++
          "]".toList ++ " (".toList ++ tx.get_response_string ++ ")".toList ∧
      (1 ≤ tx.get_data_length →
        (List.intercalate " ".toList bytes).length = 3 * tx.get_data_length - 1) := by
  obtain ⟨a1, a2, a3⟩ := address_text_spec tx.get_address
  have hmod : tx.get_address % U64_MOD = tx.get_address := by
    simp [tlm_generic_payload.get_address]
  rw [hmod] at a3
  refine ⟨if tx.get_command = TLM_READ_COMMAND then "RD ".toList
      else if tx.get_command = TLM_WRITE_COMMAND then "WR ".toList else "IG ".toList,
    address_text tx.get_address, tx.get_data_ptr.map byte_text, ?_, ?_, ?_, a1, a2, a3,
    forall₂_byte_text _, ?_, ?_⟩
  · intro h
    simp [h]
  · intro h
    have hne : ¬ tx.get_command = TLM_READ_COMMAND := by
      rw [h]
      decide
    rw [if_neg hne, if_pos h]
  · intro h1 h2
    simp [h1, h2]
  · simp only [tlm_transaction_to_str, transaction_tag, transaction_header]
    by_cases hz : tx.get_data_length = 0
    · have hnil : tx.get_data_ptr = [] := List.length_eq_zero.mp (hlen.trans hz)
      simp only [hz, if_true, tlm_data_loop, hnil]
      simp [stringstream.put_str, stringstream.padded, stringstream.str]
    · obtain ⟨l1, l2⟩ := tlm_data_loop_spec tx.get_data_length tx.get_data_length
        tx.get_data_ptr
        ⟨(if tx.get_command = TLM_READ_COMMAND then "RD ".toList
            else if tx.get_command = TLM_WRITE_COMMAND then "WR ".toList
            else "IG ".toList) ++ "0x".toList ++ address_text tx.get_address ++ " [".toList,
          0, '0', true⟩ hlen (le_refl _) rfl rfl
      simp only [hz, if_false]
      simp only [stringstream.put_str, stringstream.padded, stringstream.str, l1, l2]
      simp
  · intro hpos
    have hl := intercalate_length " ".toList (tx.get_data_ptr.map byte_text) 2
      (by
        intro x hx
        obtain ⟨b, _, rfl⟩ := List.mem_map.mp hx
        exact (byte_text_spec b).1)
      (by simpa [hlen] using hpos)
    rw [hl]
    simp only [List.length_map, hlen]
    have : " ".toList.length = 1 := rfl
    rw [this]
    omega

/-- Witness for C11: a write of the three bytes de ad 05 to address 0x1000 with response
OK. -/
theorem tlm_transaction_to_str_format_witness :
    (tlm_generic_payload.get_data_ptr ⟨1, 0x1000, [0xde, 0xad, 5], 3, 1⟩).length
      = tlm_generic_payload.get_data_length ⟨1, 0x1000, [0xde, 0xad, 5], 3, 1⟩ ∧
    tlm_transaction_to_str ⟨1, 0x1000, [0xde, 0xad, 5], 3, 1⟩
      = "WR 0x0000000000001000 [de ad 05] (TLM_OK_RESPONSE)".toList ∧
    ∃ (tag addr : std_string) (bytes : List std_string),
      tlm_transaction_to_str ⟨1, 0x1000, [0xde, 0xad, 5], 3, 1⟩
        = tag ++ "0x".toList ++ addr ++ " [".toList ++ List.intercalate " ".toList bytes ++
          "]".toList ++ " (".toList ++ "TLM_OK_RESPONSE".toList ++ ")".toList ∧
      tag = "WR ".toList ∧ addr.length = 16 ∧
      (List.intercalate " ".toList bytes).length = 8 := by
  refine ⟨by decide, by decide, ?_⟩
  obtain ⟨tag, addr, bytes, _, hw, _, hlen, _, _, _, hstr, hsec⟩ :=
    tlm_transaction_to_str_format ⟨1, 0x1000, [0xde, 0xad, 5], 3, 1⟩ (by decide)
  refine ⟨tag, addr, bytes, ?_, hw (by decide), hlen, ?_⟩
  · rw [hstr]
    rfl
  · exact hsec (by decide)

end vcml
